import Mathlib

/-!
A verification development for the funnel-planning widget in
`src/assets/main.js` (TypeScript source mirrored at the end of that file).

The embedding models:
* JavaScript's `Number(string)` coercion (`jsNumber`), with `NaN` and the
  infinities made explicit in the `JSNum` type; finite values are exact
  rationals (every finite IEEE double is a rational, and every double is
  decimal-representable, which is the regime all theorems below live in).
* `FormData` as an ordered list of name/value string pairs (`FormState`);
  `get` returns the first match, `getAll` every match in order.
* `localStorage` as a single-slot `Store` for the fixed key
  `foxytrailz23:funnel`, with flags letting `setItem`/`getItem` throw, so the
  try/catch structure of `persistConfig`/`loadConfig` is visible.
* `JSON.parse` as a fuel-indexed recursive-descent parser over the strict
  JSON grammar (`jsonParse`), and `JSON.stringify` of a `FunnelConfig` as a
  direct encoder (`configStringify`); `Number.prototype.toString` is modelled
  in its plain-decimal regime (no `1e21` exponent form — the program never
  reaches those magnitudes).
* the DOM output region as a list of `(tag, textContent)` nodes.

Number formatting (`toFixed(0)`, `toLocaleString()` in the default en-US
locale) is modelled on exact rationals; at the concrete values the claims
mention, the rational results agree with the IEEE-double results.
-/

attribute [local semireducible] Rat.add Rat.mul Rat.inv Rat.sub

/-! ### JavaScript primitive helpers -/

/-- The characters `String.prototype.trim` and `Number` treat as whitespace
(ASCII whitespace plus the common Unicode space characters). -/
def jsWs (c : Char) : Bool :=
  c.toNat == 32 || c.toNat == 9 || c.toNat == 10 || c.toNat == 13 ||
  c.toNat == 11 || c.toNat == 12 || c.toNat == 0xa0 || c.toNat == 0x1680 ||
  (decide (0x2000 ≤ c.toNat) && decide (c.toNat ≤ 0x200a)) ||
  c.toNat == 0x2028 || c.toNat == 0x2029 || c.toNat == 0x202f ||
  c.toNat == 0x205f || c.toNat == 0x3000 || c.toNat == 0xfeff

/-- Strip leading and trailing JS whitespace from a character list. -/
def jsTrimList (l : List Char) : List Char :=
  ((l.dropWhile jsWs).reverse.dropWhile jsWs).reverse

/-- `String.prototype.trim`. -/
def jsTrim (s : String) : String := String.mk (jsTrimList s.data)

/-- Decimal digit test (`0`–`9`). -/
def isDigitC (c : Char) : Bool := decide (48 ≤ c.toNat) && decide (c.toNat ≤ 57)

/-- The numeric value of a decimal digit character. -/
def digitVal (c : Char) : ℕ := c.toNat - 48

/-- The character for a decimal digit. -/
def digitChar (d : ℕ) : Char := Char.ofNat (48 + d)

/-- Value of a big-endian decimal digit run. -/
def digitsVal (l : List Char) : ℕ := l.foldl (fun a c => 10 * a + digitVal c) 0

/-- Little-endian decimal digits of `n`, with explicit fuel so the kernel can
reduce it (`fuel = n` always suffices). -/
def natDigitsRev (fuel n : ℕ) : List ℕ :=
  match fuel with
  | 0 => []
  | f + 1 => if n = 0 then [] else n % 10 :: natDigitsRev f (n / 10)

/-- Big-endian decimal digit characters of `n` (`"0"` for zero) — the output
of JavaScript's number-to-string conversion on naturals. -/
def natDigitsBE (n : ℕ) : List Char :=
  if n = 0 then ['0'] else ((natDigitsRev n n).map digitChar).reverse

/-- A JavaScript number: `NaN`, the two infinities, or a finite value
(modelled as an exact rational). -/
inductive JSNum where
  | nan
  | posInf
  | negInf
  | num (q : ℚ)
deriving DecidableEq

/-- Hexadecimal digit value, if `c` is one. -/
def hexDigitVal (c : Char) : Option ℕ :=
  if 48 ≤ c.toNat ∧ c.toNat ≤ 57 then some (c.toNat - 48)
  else if 97 ≤ c.toNat ∧ c.toNat ≤ 102 then some (c.toNat - 87)
  else if 65 ≤ c.toNat ∧ c.toNat ≤ 70 then some (c.toNat - 55)
  else none

/-- Octal digit value, if `c` is one. -/
def octDigitVal (c : Char) : Option ℕ :=
  if 48 ≤ c.toNat ∧ c.toNat ≤ 55 then some (c.toNat - 48) else none

/-- Binary digit value, if `c` is one. -/
def binDigitVal (c : Char) : Option ℕ :=
  if c.toNat = 48 ∨ c.toNat = 49 then some (c.toNat - 48) else none

/-- Value of a digit run in base `b` under digit reader `dv`; `none` when the
run is empty or contains an invalid digit. -/
def radixVal (dv : Char → Option ℕ) (b : ℕ) (l : List Char) : Option ℕ :=
  if l.isEmpty then none
  else l.foldl (fun acc c => acc.bind fun a => (dv c).map fun d => b * a + d) (some 0)

/-- The exponent suffix of a JS decimal literal: a nonempty digit run, already
past the `e`/`E` and optional sign; yields the multiplier `10^±v`. -/
def jsExpMul (neg : Bool) (l : List Char) : Option (ℚ × List Char) :=
  let p := l.span isDigitC
  if p.1.isEmpty then none
  else some (if neg then ((10 : ℚ) ^ digitsVal p.1)⁻¹ else (10 : ℚ) ^ digitsVal p.1, p.2)

/-- An unsigned JS decimal literal (`StrUnsignedDecimalLiteral`): digits with
optional fraction and exponent. The whole input must be consumed. -/
def jsDecFull (l : List Char) : Option ℚ :=
  let ip := l.span isDigitC
  let fp : List Char × List Char :=
    match ip.2 with
    | '.' :: r => r.span isDigitC
    | _ => ([], ip.2)
  if ip.1.isEmpty ∧ fp.1.isEmpty then none
  else
    let em : Option (ℚ × List Char) :=
      match fp.2 with
      | 'e' :: '+' :: r => jsExpMul false r
      | 'e' :: '-' :: r => jsExpMul true r
      | 'e' :: r => jsExpMul false r
      | 'E' :: '+' :: r => jsExpMul false r
      | 'E' :: '-' :: r => jsExpMul true r
      | 'E' :: r => jsExpMul false r
      | _ => some (1, fp.2)
    match em with
    | some (m, rr) =>
        if rr.isEmpty then
          some ((↑(digitsVal ip.1) + (↑(digitsVal fp.1) : ℚ) / 10 ^ fp.1.length) * m)
        else none
    | none => none

/-- A signed JS numeric body after trimming: `Infinity` or a decimal literal. -/
def jsSigned (neg : Bool) (l : List Char) : JSNum :=
  if l = "Infinity".data then (if neg then JSNum.negInf else JSNum.posInf)
  else
    match jsDecFull l with
    | some q => JSNum.num (if neg then -q else q)
    | none => JSNum.nan

/-- Result of a radix-prefixed literal (`0x…`, `0o…`, `0b…`). -/
def radixNum (dv : Char → Option ℕ) (b : ℕ) (l : List Char) : JSNum :=
  match radixVal dv b l with
  | some v => JSNum.num v
  | none => JSNum.nan

/-- JavaScript's `Number(string)` coercion: trim; empty means `0`; radix
prefixes; otherwise an optionally signed decimal literal or `Infinity`;
anything else is `NaN`. -/
def jsNumber (s : String) : JSNum :=
  let t := jsTrimList s.data
  if t.isEmpty then JSNum.num 0
  else
    match t with
    | '0' :: 'x' :: r => radixNum hexDigitVal 16 r
    | '0' :: 'X' :: r => radixNum hexDigitVal 16 r
    | '0' :: 'o' :: r => radixNum octDigitVal 8 r
    | '0' :: 'O' :: r => radixNum octDigitVal 8 r
    | '0' :: 'b' :: r => radixNum binDigitVal 2 r
    | '0' :: 'B' :: r => radixNum binDigitVal 2 r
    | '-' :: r => jsSigned true r
    | '+' :: r => jsSigned false r
    | _ => jsSigned false t

/-- `x.toFixed(0)` (ECMA-262: split off the sign, then take the integer
closest to the magnitude, preferring the larger on ties). -/
def toFixed0 : JSNum → String
  | JSNum.nan => "NaN"
  | JSNum.posInf => "Infinity"
  | JSNum.negInf => "-Infinity"
  | JSNum.num q =>
      if q < 0 then String.mk ('-' :: natDigitsBE (Rat.floor (-q + 1/2)).toNat)
      else String.mk (natDigitsBE (Rat.floor (q + 1/2)).toNat)

/-- Split a little-endian digit list into groups of three (last group may be
shorter). -/
def chunk3 : List Char → List (List Char)
  | a :: b :: c :: d :: rest => [a, b, c] :: chunk3 (d :: rest)
  | l => [l]

/-- Insert en-US thousands separators into a big-endian digit run. -/
def groupThousands (l : List Char) : List Char :=
  List.intercalate [','] ((chunk3 l.reverse).map List.reverse).reverse

/-- Trailing-zero-trimmed, three-digit-padded fraction part (`0 < fr < 1000`). -/
def fracDigits3 (fr : ℕ) : List Char :=
  let ds := natDigitsBE fr
  (((List.replicate (3 - ds.length) '0' ++ ds).reverse.dropWhile (· == '0')).reverse)

/-- `x.toLocaleString()` in the default en-US locale: round to at most three
fraction digits (half away from zero), group the integer part by thousands. -/
def toLocaleString : JSNum → String
  | JSNum.nan => "NaN"
  | JSNum.posInf => String.mk [Char.ofNat 0x221e]
  | JSNum.negInf => String.mk ['-', Char.ofNat 0x221e]
  | JSNum.num q =>
      let a := if q < 0 then -q else q
      let mi := (Rat.floor (a * 1000 + 1/2)).toNat
      let ip := mi / 1000
      let fr := mi % 1000
      let sgn : List Char := if q < 0 ∧ mi ≠ 0 then ['-'] else []
      let frPart : List Char := if fr = 0 then [] else '.' :: fracDigits3 fr
      String.mk (sgn ++ groupThousands (natDigitsBE ip) ++ frPart)

/-- `s.charAt(0).toUpperCase() + s.slice(1)` (ASCII uppercasing). -/
def capFirst (s : String) : String :=
  match s.data with
  | [] => ""
  | c :: cs => String.mk (c.toUpper :: cs)

/-- `s.toUpperCase()` (ASCII uppercasing), defined on the character list so
the kernel can evaluate it. -/
def jsUpper (s : String) : String := String.mk (s.data.map Char.toUpper)

/-! ### The stage catalog (`stageDescriptions`, `stageKpis`) -/

/-- `stageDescriptions` object: stage identifier to positioning copy;
`none` models JavaScript's `undefined` for an unknown key. -/
def stageDescriptions (s : String) : Option String :=
  if s = "awareness" then
    some "Build omnichannel reach with paid social, influencer partnerships, and hero content hubs."
  else if s = "consideration" then
    some "Drive mid-funnel intent with progressive profiling, comparison guides, and nurture sequences."
  else if s = "conversion" then
    some "Optimize acquisition moments with CRO testing, sales enablement, and automated onboarding."
  else if s = "retention" then
    some "Expand lifetime value through loyalty programs, lifecycle messaging, and advocacy campaigns."
  else none

/-- `stageKpis` object: stage identifier to KPI copy. -/
def stageKpis (s : String) : Option String :=
  if s = "awareness" then
    some "Primary KPIs: reach, CPM efficiency, and top-of-funnel CTR."
  else if s = "consideration" then
    some "Primary KPIs: MQL velocity, content engagement depth, and remarketing lift."
  else if s = "conversion" then
    some "Primary KPIs: CAC trendline, pipeline velocity, and on-site conversion rate."
  else if s = "retention" then
    some "Primary KPIs: repeat purchase rate, churn reduction, and NPS elevation."
  else none

/-- Template interpolation of a possibly-`undefined` value: JavaScript
renders `undefined` as the text `undefined`. -/
def tmpl (o : Option String) : String := o.getD "undefined"

/-! ### FunnelConfig and FormReader -/

/-- The `FunnelConfig` value produced by `readFunnelConfig`. -/
structure FunnelConfig where
  business : String
  industry : String
  sessions : JSNum
  cpa : JSNum
  stages : List String
  newsletter : Bool
deriving DecidableEq

/-- The state of the analysis form's named fields, in document order, as
`FormData` exposes it: a list of name/value pairs. -/
def FormState := List (String × String)

/-- `formData.get(name)`: the first value under `name`, or `null`. -/
def formGet (fs : FormState) (name : String) : Option String :=
  (List.find? (fun p => p.1 == name) fs).map (fun p => p.2)

/-- `formData.getAll(name)`: every value under `name`, in order. -/
def formGetAll (fs : FormState) (name : String) : List String :=
  (List.filter (fun p => p.1 == name) fs).map (fun p => p.2)

/-- The default stage sequence substituted for an empty selection. -/
def defaultStages : List String := ["awareness", "consideration", "conversion"]

/-- `readFunnelConfig(form)`: serialize the form into a `FunnelConfig`.
Text fields are trimmed with `''` fallback; numeric fields go through
`Number(… ?? 0)`; the repeated `stage` field is collected with `getAll` and
replaced by `defaultStages` when empty; `newsletter` is compared against the
literal string `'on'`. -/
def readFunnelConfig (fs : FormState) : FunnelConfig :=
  let stages := formGetAll fs "stage"
  { business := ((formGet fs "business").map jsTrim).getD ""
    industry := ((formGet fs "industry").map jsTrim).getD ""
    sessions :=
      match formGet fs "sessions" with
      | some v => jsNumber v
      | none => JSNum.num 0
    cpa :=
      match formGet fs "cpa" with
      | some v => jsNumber v
      | none => JSNum.num 0
    stages := if stages.length > 0 then stages else defaultStages
    newsletter := formGet fs "newsletter" == some "on" }

/-- Non-negativity of a JS number (`NaN` is not non-negative: every numeric
comparison with `NaN` is false). -/
def JSNum.Nonneg : JSNum → Prop
  | JSNum.nan => False
  | JSNum.posInf => True
  | JSNum.negInf => False
  | JSNum.num q => 0 ≤ q

instance : DecidablePred JSNum.Nonneg := fun n =>
  match n with
  | JSNum.nan => inferInstanceAs (Decidable False)
  | JSNum.posInf => inferInstanceAs (Decidable True)
  | JSNum.negInf => inferInstanceAs (Decidable False)
  | JSNum.num _ => inferInstanceAs (Decidable (_ ≤ _))

/-! ### SnapshotRenderer -/

/-- A rendered child of the output `<dl>`: element tag and `textContent`. -/
structure DomNode where
  tag : String
  text : String
deriving DecidableEq

/-- `container.replaceChildren()` with no arguments: all children removed. -/
def replaceChildrenEmpty (_prior : List DomNode) : List DomNode := []

/-- `container.append(node)`. -/
def appendChild (l : List DomNode) (n : DomNode) : List DomNode := l ++ [n]

/-- The `<dt>`/`<dd>` pair appended for one stage: capitalized label, then
catalog description and KPI text joined by a space (an unknown stage key
renders as `undefined`, as in JavaScript). -/
def stageNodes (s : String) : List DomNode :=
  [⟨"dt", capFirst s⟩,
   ⟨"dd", tmpl (stageDescriptions s) ++ " " ++ tmpl (stageKpis s)⟩]

/-- The closing `<dd>` text, chosen by the newsletter flag. -/
def nurtureText (newsletter : Bool) : String :=
  if newsletter then
    "Weekly insight digest activated. You will receive optimization briefs straight to your inbox."
  else
    "Newsletter insights skipped. Add email sync to stay aligned with funnel experiments."

/-- The heading text: business name (placeholder when empty) plus suffix. -/
def headingText (c : FunnelConfig) : String :=
  (if c.business = "" then "Your brand" else c.business) ++ " funnel overview"

/-- The summary `<dd>` text: industry (placeholder when empty), formatted
session count, CPA fixed to whole dollars. -/
def summaryText (c : FunnelConfig) : String :=
  "Industry focus: " ++ (if c.industry = "" then "General" else c.industry) ++
  " | Monthly sessions: " ++ toLocaleString c.sessions ++
  " | Target CPA: $" ++ toFixed0 c.cpa

/-- `renderFunnelSnapshot(config)` acting on the `#funnel-plan-output`
container: clear all children, then append the heading, the summary, a
`<dt>`/`<dd>` pair per stage (via `forEach`), and the nurture line. -/
def renderFunnelSnapshot (prior : List DomNode) (c : FunnelConfig) : List DomNode :=
  let base := appendChild (appendChild (replaceChildrenEmpty prior) ⟨"dt", headingText c⟩)
      ⟨"dd", summaryText c⟩
  let withStages := c.stages.foldl
      (fun acc s => appendChild (appendChild acc ⟨"dt", capFirst s⟩)
        ⟨"dd", tmpl (stageDescriptions s) ++ " " ++ tmpl (stageKpis s)⟩) base
  appendChild withStages ⟨"dd", nurtureText c.newsletter⟩

/-! ### BriefExporter line construction -/

/-- The ordered lines of the growth brief built in `setupDownloadBrief`. -/
def briefLines (c : FunnelConfig) : List String :=
  ["FoxyTrailz23 Growth Brief",
   "Business: " ++ (if c.business = "" then "Not specified" else c.business),
   "Industry: " ++ (if c.industry = "" then "Not specified" else c.industry),
   "Monthly Sessions: " ++ toLocaleString c.sessions,
   "Target CPA: $" ++ toFixed0 c.cpa,
   "Stages: " ++ String.intercalate ", " c.stages,
   "Newsletter Sync: " ++ (if c.newsletter then "Enabled" else "Disabled"),
   "",
   "Stage Strategy:"] ++
  c.stages.map (fun s => jsUpper s ++ ": " ++ tmpl (stageDescriptions s)) ++
  ["",
   "KPIs:"] ++
  c.stages.map (fun s => jsUpper s ++ ": " ++ tmpl (stageKpis s))

/-! ### The localStorage model -/

/-- The browser's `localStorage`, restricted to the single key the program
uses (`foxytrailz23:funnel`). `setThrows`/`getThrows` make the store
misbehave (quota exceeded, storage unavailable), so the error-handling
claims can quantify over store behaviours. -/
structure Store where
  val : Option String
  setThrows : Bool
  getThrows : Bool
deriving DecidableEq

/-- `localStorage.setItem` under the fixed key: an exception is an `error`
result. -/
def trySetItem (st : Store) (v : String) : Except Unit Store :=
  if st.setThrows then Except.error () else Except.ok ⟨some v, st.setThrows, st.getThrows⟩

/-- `localStorage.getItem` under the fixed key: `none` is JavaScript `null`. -/
def tryGetItem (st : Store) : Except Unit (Option String) :=
  if st.getThrows then Except.error () else Except.ok st.val

/-! ### JSON values -/

/-- A JSON value as produced by `JSON.parse`. Objects keep their members in
insertion order, as JavaScript objects do. -/
inductive Js where
  | null
  | bool (b : Bool)
  | num (q : ℚ)
  | str (s : String)
  | arr (elems : List Js)
  | obj (members : List (String × Js))

/-! ### JSON.parse -/

/-- JSON's whitespace (space, tab, line feed, carriage return). -/
def jsonWs (c : Char) : Bool :=
  c.toNat == 32 || c.toNat == 9 || c.toNat == 10 || c.toNat == 13

/-- Skip JSON whitespace. -/
def skipWs (l : List Char) : List Char := l.dropWhile jsonWs

/-- Decoding table for one-character JSON escapes. -/
def escDecode (e : Char) : Option Char :=
  if e = '"' then some '"'
  else if e = '\\' then some '\\'
  else if e = '/' then some '/'
  else if e = 'b' then some (Char.ofNat 8)
  else if e = 'f' then some (Char.ofNat 12)
  else if e = 'n' then some (Char.ofNat 10)
  else if e = 'r' then some (Char.ofNat 13)
  else if e = 't' then some (Char.ofNat 9)
  else none

/-- Parse the body of a JSON string after the opening quote, accumulating
decoded characters in reverse. Escapes follow RFC 8259; each `\uXXXX`
decodes through `Char.ofNat` (so a surrogate half, which Lean's `Char`
cannot hold, takes `Char.ofNat`'s fallback — the one spot where the model
narrows JavaScript's WTF-16 strings to Unicode scalars). Unescaped control
characters are rejected. -/
def parseStrBody : List Char → List Char → Option (String × List Char)
  | '"' :: r, acc => some (String.mk acc.reverse, r)
  | '\\' :: 'u' :: h1 :: h2 :: h3 :: h4 :: r, acc =>
    (match hexDigitVal h1, hexDigitVal h2, hexDigitVal h3, hexDigitVal h4 with
     | some v1, some v2, some v3, some v4 =>
       parseStrBody r (Char.ofNat (((v1 * 16 + v2) * 16 + v3) * 16 + v4) :: acc)
     | _, _, _, _ => none)
  | '\\' :: e :: r, acc =>
    (match escDecode e with
     | some ch => parseStrBody r (ch :: acc)
     | none => none)
  | c :: r, acc => if c.toNat < 32 then none else parseStrBody r (c :: acc)
  | [], _ => none

/-- The integer part of a JSON number: `0`, or a run led by a nonzero digit
(JSON forbids leading zeros). -/
def parseIntPart (l : List Char) : Option (ℕ × List Char) :=
  match l with
  | [] => none
  | c :: r =>
    if c = '0' then some (0, r)
    else if isDigitC c then
      some (digitsVal ((c :: r).span isDigitC).1, ((c :: r).span isDigitC).2)
    else none

/-- The optional fraction of a JSON number, as an additive rational part. -/
def parseFracPart (l : List Char) : Option (ℚ × List Char) :=
  match l with
  | [] => some (0, [])
  | c :: r =>
    if c = '.' then
      let p := r.span isDigitC
      if p.1.isEmpty then none
      else some ((↑(digitsVal p.1) : ℚ) / 10 ^ p.1.length, p.2)
    else some (0, c :: r)

/-- The sign-and-digits tail of a JSON exponent, past the `e`/`E`. -/
def parseExpTail (r : List Char) : Option (ℚ × List Char) :=
  match r with
  | '+' :: r2 => jsExpMul false r2
  | '-' :: r2 => jsExpMul true r2
  | _ => jsExpMul false r

/-- The optional exponent of a JSON number, as a multiplier. -/
def parseExpPart (l : List Char) : Option (ℚ × List Char) :=
  match l with
  | [] => some (1, [])
  | c :: r =>
    if c = 'e' ∨ c = 'E' then parseExpTail r else some (1, c :: r)

/-- A JSON number without sign. -/
def parseNumBody (l : List Char) : Option (ℚ × List Char) :=
  (parseIntPart l).bind fun ip =>
    (parseFracPart ip.2).bind fun fp =>
      (parseExpPart fp.2).map fun ep => ((↑ip.1 + fp.1) * ep.1, ep.2)

/-- A JSON number with optional leading minus. -/
def parseNum (l : List Char) : Option (ℚ × List Char) :=
  match l with
  | [] => none
  | c :: r =>
    if c = '-' then (parseNumBody r).map fun p => (-p.1, p.2)
    else parseNumBody (c :: r)

/-- One step of the three JSON parsers (value, array elements, object
members), at a given fuel, as a triple of functions. Recursion is structural
on the fuel, which drops by one at every nested parser call, so the kernel
can evaluate the parser; an input's length plus one is always enough fuel
(`jsonParse` below). -/
def parsers : ℕ →
    (List Char → Option (Js × List Char)) ×
    (List Char → Option (List Js × List Char)) ×
    (List Char → Option (List (String × Js) × List Char))
  | 0 => (fun _ => none, fun _ => none, fun _ => none)
  | fuel + 1 =>
    (fun l =>
      match skipWs l with
      | [] => none
      | c :: r =>
        if c = '"' then (parseStrBody r []).map fun p => (Js.str p.1, p.2)
        else if c = 't' then
          match r with
          | 'r' :: 'u' :: 'e' :: r2 => some (Js.bool true, r2)
          | _ => none
        else if c = 'f' then
          match r with
          | 'a' :: 'l' :: 's' :: 'e' :: r2 => some (Js.bool false, r2)
          | _ => none
        else if c = 'n' then
          match r with
          | 'u' :: 'l' :: 'l' :: r2 => some (Js.null, r2)
          | _ => none
        else if c = '[' then
          match skipWs r with
          | ']' :: r2 => some (Js.arr [], r2)
          | r2 => ((parsers fuel).2.1 r2).map fun p => (Js.arr p.1, p.2)
        else if c = '{' then
          match skipWs r with
          | '}' :: r2 => some (Js.obj [], r2)
          | r2 => ((parsers fuel).2.2 r2).map fun p => (Js.obj p.1, p.2)
        else if c = '-' ∨ isDigitC c then (parseNum (c :: r)).map fun p => (Js.num p.1, p.2)
        else none,
     fun l =>
      ((parsers fuel).1 l).bind fun p =>
        match skipWs p.2 with
        | ',' :: r2 => ((parsers fuel).2.1 r2).map fun q => (p.1 :: q.1, q.2)
        | ']' :: r2 => some ([p.1], r2)
        | _ => none,
     fun l =>
      match skipWs l with
      | '"' :: r =>
        (parseStrBody r []).bind fun kp =>
          match skipWs kp.2 with
          | ':' :: r2 =>
            ((parsers fuel).1 r2).bind fun vp =>
              match skipWs vp.2 with
              | ',' :: r3 => ((parsers fuel).2.2 r3).map fun q => ((kp.1, vp.1) :: q.1, q.2)
              | '}' :: r3 => some ([(kp.1, vp.1)], r3)
              | _ => none
          | _ => none
      | _ => none)

/-- The JSON value parser at a given fuel. -/
def parseVal (fuel : ℕ) (l : List Char) : Option (Js × List Char) := (parsers fuel).1 l

/-- The JSON array-elements parser (one or more comma-separated values,
consuming the closing bracket) at a given fuel. -/
def parseElems (fuel : ℕ) (l : List Char) : Option (List Js × List Char) := (parsers fuel).2.1 l

/-- The JSON object-members parser (one or more comma-separated pairs,
consuming the closing brace) at a given fuel. -/
def parseMembers (fuel : ℕ) (l : List Char) : Option (List (String × Js) × List Char) :=
  (parsers fuel).2.2 l

/-- `JSON.parse`: parse one value, allow trailing whitespace only. `none` is
a thrown `SyntaxError`. -/
def jsonParse (s : String) : Option Js :=
  match parseVal (s.data.length + 1) s.data with
  | some (v, r) => if (skipWs r).isEmpty then some v else none
  | none => none

/-! ### JSON.stringify -/

/-- Lowercase hexadecimal digit character. -/
def hexDigitChar (d : ℕ) : Char :=
  if d < 10 then digitChar d else Char.ofNat (87 + d)

/-- `JSON.stringify`'s escaping of one string character. -/
def escChar (c : Char) : List Char :=
  if c = '"' then ['\\', '"']
  else if c = '\\' then ['\\', '\\']
  else if c.toNat = 8 then ['\\', 'b']
  else if c.toNat = 9 then ['\\', 't']
  else if c.toNat = 10 then ['\\', 'n']
  else if c.toNat = 12 then ['\\', 'f']
  else if c.toNat = 13 then ['\\', 'r']
  else if c.toNat < 32 then
    ['\\', 'u', '0', '0', hexDigitChar (c.toNat / 16), hexDigitChar (c.toNat % 16)]
  else [c]

/-- Escape a whole character list. -/
def escList (l : List Char) : List Char := (l.map escChar).flatten

/-- A quoted JSON string literal for `s`. -/
def quoteChars (s : String) : List Char := '"' :: (escList s.data ++ ['"'])

/-- A character needing no JSON escape; a string of such characters is
"string-safe": its literal is the string itself between quotes. -/
def safeChar (c : Char) : Bool :=
  !(c == '"') && !(c == '\\') && decide (32 ≤ c.toNat)

/-- All characters of `s` are string-safe. -/
def strSafe (s : String) : Bool := s.data.all safeChar

/-- The least `k` with `q·10^k` integral, found by repeated multiplication
(explicit fuel; `q.den` steps always suffice when `q` is
decimal-representable, i.e. when `q.den` has only the prime factors 2
and 5 — which every finite IEEE double satisfies). -/
def decExpAux : ℕ → ℚ → Option ℕ
  | 0, _ => none
  | f + 1, q => if q.den = 1 then some 0 else (decExpAux f (q * 10)).map (· + 1)

/-- The decimal exponent of `q`, when `q` is decimal-representable. -/
def decExpQ (q : ℚ) : Option ℕ := decExpAux q.den q

/-- `q` has a finite decimal expansion (true of every finite double). -/
def isDecQ (q : ℚ) : Bool := (decExpQ q).isSome

/-- Left-pad a digit run with zeros to length `k`. -/
def padLeftZeros (k : ℕ) (l : List Char) : List Char :=
  List.replicate (k - l.length) '0' ++ l

/-- `Number.prototype.toString` for a non-negative decimal-representable
rational: integer digits, then a fraction part exactly when the decimal
exponent is positive. (JavaScript's exponent notation beyond `1e21` is
outside the modelled regime; a non-decimal-representable `q`, which no JS
number maps to, falls back to its integer part.) -/
def numCharsNN (q : ℚ) : List Char :=
  match decExpQ q with
  | some 0 => natDigitsBE q.num.toNat
  | some (k + 1) =>
    natDigitsBE ((q * 10 ^ (k + 1)).num.toNat / 10 ^ (k + 1)) ++
      '.' :: padLeftZeros (k + 1) (natDigitsBE ((q * 10 ^ (k + 1)).num.toNat % 10 ^ (k + 1)))
  | none => natDigitsBE q.num.toNat

/-- `Number.prototype.toString` with the sign. -/
def numChars (q : ℚ) : List Char :=
  if q < 0 then '-' :: numCharsNN (-q) else numCharsNN q

/-- `JSON.stringify` of a field that holds a JS number: `NaN` and the
infinities serialize as `null`. -/
def jsNumEnc : JSNum → List Char
  | JSNum.num q => numChars q
  | _ => ['n', 'u', 'l', 'l']

/-- `JSON.stringify` of a boolean. -/
def boolEnc : Bool → List Char
  | true => ['t', 'r', 'u', 'e']
  | false => ['f', 'a', 'l', 's', 'e']

/-- The comma-separated element list of the serialized `stages` array. -/
def stagesEnc : List String → List Char
  | [] => []
  | [s] => quoteChars s
  | s :: s2 :: rest => quoteChars s ++ ',' :: stagesEnc (s2 :: rest)

/-- The serialized `stages` array. -/
def stagesArrEnc (l : List String) : List Char := '[' :: (stagesEnc l ++ [']'])

/-- The member list of `JSON.stringify(config)`, in the insertion order of
the object literal in `readFunnelConfig`. -/
def configEncMembers (c : FunnelConfig) : List Char :=
  quoteChars "business" ++ (':' :: (quoteChars c.business ++ (',' ::
  (quoteChars "industry" ++ (':' :: (quoteChars c.industry ++ (',' ::
  (quoteChars "sessions" ++ (':' :: (jsNumEnc c.sessions ++ (',' ::
  (quoteChars "cpa" ++ (':' :: (jsNumEnc c.cpa ++ (',' ::
  (quoteChars "stages" ++ (':' :: (stagesArrEnc c.stages ++ (',' ::
  (quoteChars "newsletter" ++ (':' :: boolEnc c.newsletter)))))))))))))))))))))

/-- `JSON.stringify(config)` (the generic stringifier specialized to the
fixed shape of a `FunnelConfig`, member for member). -/
def configStringify (c : FunnelConfig) : String :=
  String.mk ('{' :: (configEncMembers c ++ ['}']))

/-- The JSON value denoted by a `FunnelConfig` (what `JSON.parse` gives back
from its serialization): `NaN`/infinite numeric fields denote `null`. -/
def jsNumToJs : JSNum → Js
  | JSNum.num q => Js.num q
  | _ => Js.null

/-- The `Js` image of a config under serialize-then-parse. -/
def configToJs (c : FunnelConfig) : Js :=
  Js.obj
    [("business", Js.str c.business),
     ("industry", Js.str c.industry),
     ("sessions", jsNumToJs c.sessions),
     ("cpa", jsNumToJs c.cpa),
     ("stages", Js.arr (c.stages.map Js.str)),
     ("newsletter", Js.bool c.newsletter)]

/-! ### ConfigCodec (`persistConfig`, `loadConfig`) -/

/-- `persistConfig(config)`: `try { setItem(key, stringify(config)) } catch
{ warn }` — the catch swallows the failure (returning the unchanged store),
so the function always returns normally (`Except.ok`). -/
def persistConfig (c : FunnelConfig) (st : Store) : Except Unit Store :=
  match trySetItem st (configStringify c) with
  | Except.ok st2 => Except.ok st2
  | Except.error _ => Except.ok st

/-- `loadConfig()`: `try { raw = getItem(key); return raw ? parse(raw) :
undefined } catch { warn; return undefined }`. A `null` or empty `raw` is
falsy; a parse error lands in the catch. The TypeScript `as FunnelConfig`
cast performs no validation, so the result is the raw parsed JSON value. -/
def loadConfig (st : Store) : Except Unit (Option Js) :=
  match tryGetItem st with
  | Except.error _ => Except.ok none
  | Except.ok none => Except.ok none
  | Except.ok (some raw) =>
    if raw = "" then Except.ok none
    else
      match jsonParse raw with
      | some j => Except.ok (some j)
      | none => Except.ok none

/-! ### BriefExporter source selection -/

/-- Read a loaded JSON value back as a `FunnelConfig`. This realizes the
TypeScript `as FunnelConfig` cast for config-shaped values; on any other
shape it is `none` (where the JavaScript original would carry the malformed
object into the template strings — a region no claim exercises, since it
requires hand-written storage content that is valid JSON but not a
serialized config). -/
def decodeStrList : List Js → Option (List String)
  | [] => some []
  | Js.str s :: r => (decodeStrList r).map (fun l => s :: l)
  | _ => none

/-- A JSON value that is a (finite) number, as a `JSNum`. -/
def decodeNum : Js → Option JSNum
  | Js.num q => some (JSNum.num q)
  | _ => none

/-- The config denoted by a config-shaped JSON value. -/
def decodeConfig : Js → Option FunnelConfig
  | Js.obj [("business", Js.str b), ("industry", Js.str i), ("sessions", sj),
            ("cpa", cj), ("stages", Js.arr l), ("newsletter", Js.bool n)] =>
    (decodeNum sj).bind fun s =>
      (decodeNum cj).bind fun cp =>
        (decodeStrList l).map fun sl => ⟨b, i, s, cp, sl, n⟩
  | _ => none

/-- The click handler of `setupDownloadBrief`: `loadConfig() ??
readFunnelConfig(form)`, then build the brief lines. -/
def exportBrief (st : Store) (fs : FormState) : List String :=
  match loadConfig st with
  | Except.ok (some j) =>
    (match decodeConfig j with
     | some c => briefLines c
     | none => briefLines (readFunnelConfig fs))
  | _ => briefLines (readFunnelConfig fs)

/-! ### Digit and character run lemmas -/

theorem digitChar_isDigit {d : ℕ} (h : d < 10) : isDigitC (digitChar d) = true := by
  interval_cases d <;> decide

theorem digitVal_digitChar {d : ℕ} (h : d < 10) : digitVal (digitChar d) = d := by
  interval_cases d <;> decide

theorem natDigitsRev_eq_digits : ∀ fuel n : ℕ, n ≤ fuel → natDigitsRev fuel n = Nat.digits 10 n := by
  intro fuel
  induction fuel with
  | zero => intro n hn; interval_cases n; simp [natDigitsRev]
  | succ f ih =>
    intro n hn
    by_cases h0 : n = 0
    · subst h0; simp [natDigitsRev]
    · rw [natDigitsRev, if_neg h0, Nat.digits_def' (by omega) (by omega),
        ih (n / 10) (by omega)]

theorem natDigitsBE_eq (n : ℕ) :
    natDigitsBE n = if n = 0 then ['0'] else ((Nat.digits 10 n).map digitChar).reverse := by
  rw [natDigitsBE, natDigitsRev_eq_digits n n le_rfl]

theorem natDigitsBE_all_digits (n : ℕ) : ∀ c ∈ natDigitsBE n, isDigitC c = true := by
  rw [natDigitsBE_eq]
  by_cases h0 : n = 0
  · simp [h0]; decide
  · rw [if_neg h0]
    intro c hc
    rw [List.mem_reverse, List.mem_map] at hc
    obtain ⟨d, hd, rfl⟩ := hc
    exact digitChar_isDigit (Nat.digits_lt_base (by omega) hd)

theorem natDigitsBE_ne_nil (n : ℕ) : natDigitsBE n ≠ [] := by
  rw [natDigitsBE_eq]
  by_cases h0 : n = 0
  · simp [h0]
  · simp [h0, Nat.digits_ne_nil_iff_ne_zero.mpr h0]

theorem natDigitsBE_head_pos (n : ℕ) (h : n ≠ 0) :
    ∃ c t, natDigitsBE n = c :: t ∧ isDigitC c = true ∧ c ≠ '0' := by
  rcases List.eq_nil_or_concat (Nat.digits 10 n) with hnil | ⟨L, d, hLd⟩
  · exact absurd hnil (Nat.digits_ne_nil_iff_ne_zero.mpr h)
  · have hd10 : d < 10 := Nat.digits_lt_base (by omega) (by rw [hLd]; simp)
    have hdne : d ≠ 0 := by
      have hne : Nat.digits 10 n ≠ [] := Nat.digits_ne_nil_iff_ne_zero.mpr h
      have h1 : (Nat.digits 10 n).getLast? = some d := by
        rw [hLd, List.concat_eq_append]; exact List.getLast?_concat _
      have h2 := Nat.getLast_digit_ne_zero 10 h
      rw [List.getLast?_eq_getLast _ hne, Option.some.injEq] at h1
      rw [← h1]
      exact h2
    refine ⟨digitChar d, (L.map digitChar).reverse, ?_, digitChar_isDigit hd10, ?_⟩
    · rw [natDigitsBE_eq, if_neg h, hLd]; simp
    · intro hc
      have : digitVal (digitChar d) = digitVal '0' := by rw [hc]
      rw [digitVal_digitChar hd10] at this
      simp [digitVal] at this
      omega

theorem foldl_digitsVal_digits (L : List ℕ) (hL : ∀ d ∈ L, d < 10) (a : ℕ) :
    List.foldl (fun x c => 10 * x + digitVal c) a ((L.map digitChar).reverse) =
      a * 10 ^ L.length + Nat.ofDigits 10 L := by
  induction L generalizing a with
  | nil => simp [Nat.ofDigits]
  | cons d L ih =>
    have hd : d < 10 := hL d (by simp)
    rw [List.map_cons, List.reverse_cons, List.foldl_append,
      ih (fun x hx => hL x (by simp [hx]))]
    simp only [List.foldl_cons, List.foldl_nil, Nat.ofDigits_cons, List.length_cons,
      digitVal_digitChar hd]
    ring

theorem digitsVal_natDigitsBE (n : ℕ) : digitsVal (natDigitsBE n) = n := by
  rw [natDigitsBE_eq]
  by_cases h0 : n = 0
  · simp [h0, digitsVal, digitVal]
  · rw [if_neg h0, digitsVal,
      foldl_digitsVal_digits _ (fun d hd => Nat.digits_lt_base (by omega) hd) 0]
    simp [Nat.ofDigits_digits]

theorem digitsVal_append_zeros (z : ℕ) (l : List Char) :
    digitsVal (List.replicate z '0' ++ l) = digitsVal l := by
  induction z with
  | zero => rfl
  | succ k ih =>
    rw [List.replicate_succ, List.cons_append]
    show digitsVal (List.replicate k '0' ++ l) = digitsVal l
    exact ih

theorem digitsVal_padLeftZeros (k : ℕ) (l : List Char) :
    digitsVal (padLeftZeros k l) = digitsVal l :=
  digitsVal_append_zeros _ l

theorem padLeftZeros_length {k : ℕ} {l : List Char} (h : l.length ≤ k) :
    (padLeftZeros k l).length = k := by
  simp [padLeftZeros]
  omega

theorem padLeftZeros_all_digits {k : ℕ} {l : List Char}
    (h : ∀ c ∈ l, isDigitC c = true) : ∀ c ∈ padLeftZeros k l, isDigitC c = true := by
  intro c hc
  rw [padLeftZeros, List.mem_append] at hc
  rcases hc with hc | hc
  · rw [List.eq_of_mem_replicate hc]; decide
  · exact h c hc

theorem natDigitsBE_length_le {r k : ℕ} (hr : r < 10 ^ k) (hk : 1 ≤ k) :
    (natDigitsBE r).length ≤ k := by
  rw [natDigitsBE_eq]
  by_cases h0 : r = 0
  · simp [h0]; omega
  · rw [if_neg h0]
    simp only [List.length_reverse, List.length_map]
    rw [Nat.digits_len 10 r (by omega) h0]
    have := (Nat.lt_pow_iff_log_lt (by omega) h0).mp hr
    omega

/-- A remainder that cannot extend a JSON number: empty, or headed by a
character that is neither a digit nor `.`, `e`, `E`. Every delimiter the
encoder emits after a number (`,`, `}`, `]`, end of input) qualifies. -/
def numStop : List Char → Bool
  | [] => true
  | c :: _ => !(isDigitC c || c == '.' || c == 'e' || c == 'E')

theorem takeWhile_digits_append {ds : List Char} (hds : ∀ c ∈ ds, isDigitC c = true)
    {rest : List Char} (hrest : rest.takeWhile isDigitC = []) :
    (ds ++ rest).takeWhile isDigitC = ds := by
  induction ds with
  | nil => simpa using hrest
  | cons c t ih =>
    rw [List.cons_append, List.takeWhile_cons, if_pos (hds c (by simp)),
      ih (fun x hx => hds x (by simp [hx]))]

theorem dropWhile_digits_append {ds : List Char} (hds : ∀ c ∈ ds, isDigitC c = true)
    {rest : List Char} (hrest : rest.dropWhile isDigitC = rest) :
    (ds ++ rest).dropWhile isDigitC = rest := by
  induction ds with
  | nil => simpa using hrest
  | cons c t ih =>
    rw [List.cons_append, List.dropWhile_cons, if_pos (hds c (by simp)),
      ih (fun x hx => hds x (by simp [hx]))]

theorem takeWhile_numStop {rest : List Char} (h : numStop rest = true) :
    rest.takeWhile isDigitC = [] := by
  match rest with
  | [] => rfl
  | c :: t =>
    simp only [numStop, Bool.not_eq_true', Bool.or_eq_false_iff] at h
    rw [List.takeWhile_cons, if_neg (by simp [h.1.1.1])]

theorem dropWhile_numStop {rest : List Char} (h : numStop rest = true) :
    rest.dropWhile isDigitC = rest := by
  match rest with
  | [] => rfl
  | c :: t =>
    simp only [numStop, Bool.not_eq_true', Bool.or_eq_false_iff] at h
    rw [List.dropWhile_cons, if_neg (by simp [h.1.1.1])]

theorem span_digits_append {ds : List Char} (hds : ∀ c ∈ ds, isDigitC c = true)
    {rest : List Char} (hrest : numStop rest = true) :
    (ds ++ rest).span isDigitC = (ds, rest) := by
  rw [List.span_eq_take_drop, takeWhile_digits_append hds (takeWhile_numStop hrest),
    dropWhile_digits_append hds (dropWhile_numStop hrest)]

theorem numStop_head {c : Char} {t : List Char} (h : numStop (c :: t) = true) :
    isDigitC c = false ∧ c ≠ '.' ∧ c ≠ 'e' ∧ c ≠ 'E' := by
  simp only [numStop, Bool.not_eq_true', Bool.or_eq_false_iff, beq_eq_false_iff_ne] at h
  exact ⟨h.1.1.1, h.1.1.2, h.1.2, h.2⟩

/-! ### Decimal exponent lemmas -/

theorem decExpAux_den : ∀ (fuel : ℕ) (q : ℚ) (k : ℕ),
    decExpAux fuel q = some k → (q * 10 ^ k).den = 1 := by
  intro fuel
  induction fuel with
  | zero => intro q k h; simp [decExpAux] at h
  | succ f ih =>
    intro q k h
    rw [decExpAux] at h
    by_cases hden : q.den = 1
    · rw [if_pos hden] at h
      obtain rfl : (0 : ℕ) = k := Option.some.injEq _ _ ▸ (by simpa using h)
      simpa using hden
    · rw [if_neg hden, Option.map_eq_some'] at h
      obtain ⟨k', hk', rfl⟩ := h
      have := ih (q * 10) k' hk'
      rw [mul_assoc] at this
      rw [pow_succ']
      exact this

theorem decExpAux_neg : ∀ (fuel : ℕ) (q : ℚ), decExpAux fuel (-q) = decExpAux fuel q := by
  intro fuel
  induction fuel with
  | zero => intro q; rfl
  | succ f ih =>
    intro q
    rw [decExpAux, decExpAux, Rat.neg_den]
    by_cases hden : q.den = 1
    · rw [if_pos hden, if_pos hden]
    · rw [if_neg hden, if_neg hden, show -q * 10 = -(q * 10) by ring, ih]

theorem isDecQ_neg (q : ℚ) : isDecQ (-q) = isDecQ q := by
  rw [isDecQ, isDecQ, decExpQ, decExpQ, Rat.neg_den, decExpAux_neg]

/-! ### JSON number round-trip -/

/-- A remainder whose head is not a digit (it cannot extend a digit run). -/
def notDigitHead : List Char → Bool
  | [] => true
  | c :: _ => !isDigitC c

theorem numStop_notDigitHead {rest : List Char} (h : numStop rest = true) :
    notDigitHead rest = true := by
  match rest with
  | [] => rfl
  | c :: t =>
    simp only [numStop, Bool.not_eq_true', Bool.or_eq_false_iff] at h
    simp [notDigitHead, h.1.1.1]

theorem span_digits_append' {ds : List Char} (hds : ∀ c ∈ ds, isDigitC c = true)
    {rest : List Char} (hrest : notDigitHead rest = true) :
    (ds ++ rest).span isDigitC = (ds, rest) := by
  have h1 : rest.takeWhile isDigitC = [] := by
    match rest with
    | [] => rfl
    | c :: t =>
      simp only [notDigitHead, Bool.not_eq_true'] at hrest
      rw [List.takeWhile_cons, if_neg (by simp [hrest])]
  have h2 : rest.dropWhile isDigitC = rest := by
    match rest with
    | [] => rfl
    | c :: t =>
      simp only [notDigitHead, Bool.not_eq_true'] at hrest
      rw [List.dropWhile_cons, if_neg (by simp [hrest])]
  rw [List.span_eq_take_drop, takeWhile_digits_append hds h1, dropWhile_digits_append hds h2]

theorem natDigitsBE_head (n : ℕ) :
    ∃ c t, natDigitsBE n = c :: t ∧ isDigitC c = true := by
  rcases h : natDigitsBE n with _ | ⟨c, t⟩
  · exact absurd h (natDigitsBE_ne_nil n)
  · exact ⟨c, t, rfl, natDigitsBE_all_digits n c (h ▸ List.mem_cons_self c t)⟩

theorem parseIntPart_digits (n : ℕ) {rest : List Char} (hr : notDigitHead rest = true) :
    parseIntPart (natDigitsBE n ++ rest) = some (n, rest) := by
  by_cases h0 : n = 0
  · subst h0
    rfl
  · obtain ⟨c, t, hct, hdig, hne0⟩ := natDigitsBE_head_pos n h0
    have hall : ∀ x ∈ c :: t, isDigitC x = true := hct ▸ natDigitsBE_all_digits n
    have hspan : ((c :: t) ++ rest).span isDigitC = (c :: t, rest) :=
      span_digits_append' hall hr
    have hval : digitsVal (c :: t) = n := hct ▸ digitsVal_natDigitsBE n
    rw [hct]
    show parseIntPart (c :: (t ++ rest)) = some (n, rest)
    rw [parseIntPart, if_neg hne0, if_pos (hall c (by simp)), show c :: (t ++ rest)
      = (c :: t) ++ rest from rfl, hspan, hval]

theorem parseFracPart_stop {rest : List Char} (hr : numStop rest = true) :
    parseFracPart rest = some (0, rest) := by
  match rest with
  | [] => rfl
  | c :: t =>
    obtain ⟨-, hdot, -, -⟩ := numStop_head hr
    rw [parseFracPart, if_neg hdot]

theorem parseExpPart_stop {rest : List Char} (hr : numStop rest = true) :
    parseExpPart rest = some (1, rest) := by
  match rest with
  | [] => rfl
  | c :: t =>
    obtain ⟨-, -, he, hE⟩ := numStop_head hr
    rw [parseExpPart, if_neg (by simp [he, hE])]

theorem parseNumBody_int (n : ℕ) {rest : List Char} (hr : numStop rest = true) :
    parseNumBody (natDigitsBE n ++ rest) = some ((n : ℚ), rest) := by
  rw [parseNumBody, parseIntPart_digits n (numStop_notDigitHead hr)]
  simp [parseFracPart_stop hr, parseExpPart_stop hr]

theorem parseNumBody_frac (n r k : ℕ) (hrk : r < 10 ^ (k + 1)) {rest : List Char}
    (hr : numStop rest = true) :
    parseNumBody (natDigitsBE n ++ '.' :: (padLeftZeros (k + 1) (natDigitsBE r) ++ rest)) =
      some ((n : ℚ) + (r : ℚ) / 10 ^ (k + 1), rest) := by
  have hpadd : ∀ c ∈ padLeftZeros (k + 1) (natDigitsBE r), isDigitC c = true :=
    padLeftZeros_all_digits (natDigitsBE_all_digits r)
  have hplen : (padLeftZeros (k + 1) (natDigitsBE r)).length = k + 1 :=
    padLeftZeros_length (natDigitsBE_length_le hrk (by omega))
  have hpne : (padLeftZeros (k + 1) (natDigitsBE r)).isEmpty = false := by
    rw [List.isEmpty_eq_false_iff_exists_mem]
    have : 0 < (padLeftZeros (k + 1) (natDigitsBE r)).length := by omega
    exact List.exists_mem_of_length_pos this
  rw [parseNumBody, parseIntPart_digits n (by rfl)]
  simp only [Option.bind_eq_bind, Option.some_bind]
  rw [parseFracPart, if_pos rfl]
  simp only [span_digits_append' hpadd (numStop_notDigitHead hr), hpne]
  rw [if_neg (by simp), digitsVal_padLeftZeros, digitsVal_natDigitsBE, hplen]
  simp [parseExpPart_stop hr]

theorem parseNumBody_numCharsNN (q : ℚ) (hq0 : 0 ≤ q) (hdec : isDecQ q = true)
    {rest : List Char} (hr : numStop rest = true) :
    parseNumBody (numCharsNN q ++ rest) = some (q, rest) := by
  obtain ⟨k, hk⟩ := Option.isSome_iff_exists.mp hdec
  match k with
  | 0 =>
    have hden : q.den = 1 := by
      have := decExpAux_den q.den q 0 hk
      simpa using this
    have hq : ((q.num.toNat : ℕ) : ℚ) = q := by
      have h1 : ((q.num : ℤ) : ℚ) = q := (Rat.den_eq_one_iff q).mp hden
      have h2 : (0 : ℤ) ≤ q.num := Rat.num_nonneg.mpr hq0
      rw [← h1]
      exact_mod_cast congrArg (fun z : ℤ => (z : ℚ)) (Int.toNat_of_nonneg h2)
    rw [numCharsNN, decExpQ] at *
    rw [hk]
    simp only
    rw [parseNumBody_int _ hr, hq]
  | k + 1 =>
    have hden : (q * 10 ^ (k + 1)).den = 1 := decExpAux_den q.den q (k + 1) hk
    have hpos : (0 : ℕ) < 10 ^ (k + 1) := by positivity
    have hm : (((q * 10 ^ (k + 1)).num.toNat : ℕ) : ℚ) = q * 10 ^ (k + 1) := by
      have h1 : (((q * 10 ^ (k + 1)).num : ℤ) : ℚ) = q * 10 ^ (k + 1) :=
        (Rat.den_eq_one_iff _).mp hden
      have h2 : (0 : ℤ) ≤ (q * 10 ^ (k + 1)).num := by
        rw [Rat.num_nonneg]
        positivity
      rw [← h1]
      exact_mod_cast congrArg (fun z : ℤ => (z : ℚ)) (Int.toNat_of_nonneg h2)
    set m := (q * 10 ^ (k + 1)).num.toNat with hmdef
    rw [numCharsNN, decExpQ] at *
    rw [hk]
    simp only
    rw [List.append_assoc, List.cons_append,
      parseNumBody_frac (m / 10 ^ (k + 1)) (m % 10 ^ (k + 1)) k (Nat.mod_lt m hpos) hr]
    congr 1
    rw [Prod.mk.injEq]
    refine ⟨?_, rfl⟩
    have hsplit : (m : ℚ) = 10 ^ (k + 1) * ((m / 10 ^ (k + 1) : ℕ) : ℚ) +
        ((m % 10 ^ (k + 1) : ℕ) : ℚ) := by
      exact_mod_cast (Nat.div_add_mod m (10 ^ (k + 1))).symm
    have hR : ((10 : ℚ)) ^ (k + 1) ≠ 0 := by positivity
    field_simp
    push_cast at hsplit ⊢
    linarith [hm, hsplit]

theorem numCharsNN_head (q : ℚ) :
    ∃ c t, numCharsNN q = c :: t ∧ isDigitC c = true := by
  rw [numCharsNN]
  rcases hdq : decExpQ q with - | k
  · simp only
    exact natDigitsBE_head _
  · match k with
    | 0 =>
      simp only
      exact natDigitsBE_head _
    | k + 1 =>
      simp only
      obtain ⟨c, t, hct, hdig⟩ := natDigitsBE_head ((q * 10 ^ (k + 1)).num.toNat / 10 ^ (k + 1))
      exact ⟨c, t ++ '.' :: padLeftZeros (k + 1)
        (natDigitsBE ((q * 10 ^ (k + 1)).num.toNat % 10 ^ (k + 1))), by rw [hct]; rfl, hdig⟩

theorem isDigitC_ne_minus {c : Char} (h : isDigitC c = true) : c ≠ '-' := by
  intro hc
  subst hc
  exact absurd h (by decide)

theorem parseNum_numChars (q : ℚ) (hdec : isDecQ q = true) {rest : List Char}
    (hr : numStop rest = true) :
    parseNum (numChars q ++ rest) = some (q, rest) := by
  by_cases hq : q < 0
  · rw [numChars, if_pos hq]
    show parseNum ('-' :: (numCharsNN (-q) ++ rest)) = some (q, rest)
    rw [parseNum, if_pos rfl,
      parseNumBody_numCharsNN (-q) (by linarith) (by rwa [isDecQ_neg]) hr]
    simp
  · rw [numChars, if_neg hq]
    obtain ⟨c, t, hct, hdig⟩ := numCharsNN_head q
    rw [hct]
    show parseNum (c :: (t ++ rest)) = some (q, rest)
    rw [parseNum, if_neg (isDigitC_ne_minus hdig),
      show c :: (t ++ rest) = (c :: t) ++ rest from rfl, ← hct,
      parseNumBody_numCharsNN q (by linarith) hdec hr]

/-! ### JSON string round-trip -/

theorem safeChar_spec {c : Char} (h : safeChar c = true) :
    c ≠ '"' ∧ c ≠ '\\' ∧ 32 ≤ c.toNat := by
  simp only [safeChar, Bool.and_eq_true, Bool.not_eq_true', beq_eq_false_iff_ne,
    decide_eq_true_eq] at h
  exact ⟨h.1.1, h.1.2, h.2⟩

theorem escChar_safe {c : Char} (h : safeChar c = true) : escChar c = [c] := by
  obtain ⟨h1, h2, h3⟩ := safeChar_spec h
  rw [escChar, if_neg h1, if_neg h2, if_neg (by omega), if_neg (by omega),
    if_neg (by omega), if_neg (by omega), if_neg (by omega), if_neg (by omega)]

theorem escList_safe {l : List Char} (h : ∀ c ∈ l, safeChar c = true) : escList l = l := by
  induction l with
  | nil => rfl
  | cons c t ih =>
    rw [escList, List.map_cons, List.flatten_cons, escChar_safe (h c (by simp))]
    rw [escList] at ih
    rw [ih (fun x hx => h x (by simp [hx]))]
    rfl

theorem parseStrBody_safe_cons {c : Char} (h1 : c ≠ '"') (h2 : c ≠ '\\')
    (h3 : 32 ≤ c.toNat) (r acc : List Char) :
    parseStrBody (c :: r) acc = parseStrBody r (c :: acc) := by
  rw [parseStrBody.eq_def]
  split
  · rename_i heq
    rw [List.cons.injEq] at heq
    exact absurd heq.1 h1
  · rename_i heq
    rw [List.cons.injEq] at heq
    exact absurd heq.1 h2
  · rename_i heq
    rw [List.cons.injEq] at heq
    exact absurd heq.1 h2
  · rename_i c' r' heq
    rw [List.cons.injEq] at heq
    obtain ⟨rfl, rfl⟩ := heq
    rw [if_neg (by omega)]
  · rename_i heq
    exact absurd heq (by simp)

theorem parseStrBody_safe (s : List Char) (hs : ∀ c ∈ s, safeChar c = true) :
    ∀ acc rest : List Char,
      parseStrBody (s ++ '"' :: rest) acc = some (String.mk (acc.reverse ++ s), rest) := by
  induction s with
  | nil => intro acc rest; simp [parseStrBody]
  | cons c t ih =>
    intro acc rest
    obtain ⟨h1, h2, h3⟩ := safeChar_spec (hs c (by simp))
    rw [List.cons_append, parseStrBody_safe_cons h1 h2 h3,
      ih (fun x hx => hs x (by simp [hx])) (c :: acc) rest]
    simp

theorem parseStrBody_quote (s : String) (hs : strSafe s = true) (rest : List Char) :
    parseStrBody (s.data ++ '"' :: rest) [] = some (s, rest) := by
  rw [parseStrBody_safe s.data (by simpa [strSafe, List.all_eq_true] using hs) [] rest]
  rfl

/-! ### Parser step lemmas -/

theorem skipWs_cons {c : Char} {l : List Char} (h : jsonWs c = false) :
    skipWs (c :: l) = c :: l := by
  rw [skipWs, List.dropWhile_cons, if_neg (by simp [h])]

theorem isDigitC_spec {c : Char} (h : isDigitC c = true) :
    48 ≤ c.toNat ∧ c.toNat ≤ 57 := by
  simp only [isDigitC, Bool.and_eq_true, decide_eq_true_eq] at h
  exact h

theorem isDigitC_not_jsonWs {c : Char} (h : isDigitC c = true) : jsonWs c = false := by
  obtain ⟨hl, hr⟩ := isDigitC_spec h
  simp only [jsonWs, Bool.or_eq_false_iff, beq_eq_false_iff_ne, ne_eq]
  omega

theorem isDigitC_branches {c : Char} (h : isDigitC c = true) :
    c ≠ '"' ∧ c ≠ 't' ∧ c ≠ 'f' ∧ c ≠ 'n' ∧ c ≠ '[' ∧ c ≠ '{' := by
  refine ⟨?_, ?_, ?_, ?_, ?_, ?_⟩ <;> (intro hc; subst hc; exact absurd h (by decide))

/-- The first parser component at successor fuel, written out. -/
theorem parseVal_succ (fuel : ℕ) (l : List Char) :
    parseVal (fuel + 1) l =
      match skipWs l with
      | [] => none
      | c :: r =>
        if c = '"' then (parseStrBody r []).map fun p => (Js.str p.1, p.2)
        else if c = 't' then
          match r with
          | 'r' :: 'u' :: 'e' :: r2 => some (Js.bool true, r2)
          | _ => none
        else if c = 'f' then
          match r with
          | 'a' :: 'l' :: 's' :: 'e' :: r2 => some (Js.bool false, r2)
          | _ => none
        else if c = 'n' then
          match r with
          | 'u' :: 'l' :: 'l' :: r2 => some (Js.null, r2)
          | _ => none
        else if c = '[' then
          match skipWs r with
          | ']' :: r2 => some (Js.arr [], r2)
          | r2 => (parseElems fuel r2).map fun p => (Js.arr p.1, p.2)
        else if c = '{' then
          match skipWs r with
          | '}' :: r2 => some (Js.obj [], r2)
          | r2 => (parseMembers fuel r2).map fun p => (Js.obj p.1, p.2)
        else if c = '-' ∨ isDigitC c then (parseNum (c :: r)).map fun p => (Js.num p.1, p.2)
        else none := rfl

/-- The elements parser at successor fuel, written out. -/
theorem parseElems_succ (fuel : ℕ) (l : List Char) :
    parseElems (fuel + 1) l =
      (parseVal fuel l).bind fun p =>
        match skipWs p.2 with
        | ',' :: r2 => (parseElems fuel r2).map fun q => (p.1 :: q.1, q.2)
        | ']' :: r2 => some ([p.1], r2)
        | _ => none := rfl

/-- The members parser at successor fuel, written out. -/
theorem parseMembers_succ (fuel : ℕ) (l : List Char) :
    parseMembers (fuel + 1) l =
      match skipWs l with
      | '"' :: r =>
        (parseStrBody r []).bind fun kp =>
          match skipWs kp.2 with
          | ':' :: r2 =>
            (parseVal fuel r2).bind fun vp =>
              match skipWs vp.2 with
              | ',' :: r3 => (parseMembers fuel r3).map fun q => ((kp.1, vp.1) :: q.1, q.2)
              | '}' :: r3 => some ([(kp.1, vp.1)], r3)
              | _ => none
          | _ => none
      | _ => none := rfl

theorem quoteChars_safe_eq (s : String) (hs : strSafe s = true) :
    quoteChars s = '"' :: (s.data ++ ['"']) := by
  rw [quoteChars, escList_safe (by simpa [strSafe, List.all_eq_true] using hs)]

theorem parseVal_quote (fuel : ℕ) (s : String) (hs : strSafe s = true) (rest : List Char) :
    parseVal (fuel + 1) (quoteChars s ++ rest) = some (Js.str s, rest) := by
  have hd : quoteChars s ++ rest = '"' :: (s.data ++ ('"' :: rest)) := by
    rw [quoteChars_safe_eq s hs]
    simp
  rw [hd, parseVal_succ, skipWs_cons (by decide)]
  simp only [if_pos rfl]
  rw [parseStrBody_quote s hs rest]
  rfl

theorem parseVal_boolEnc (fuel : ℕ) (b : Bool) (rest : List Char) :
    parseVal (fuel + 1) (boolEnc b ++ rest) = some (Js.bool b, rest) := by
  cases b <;> rfl

theorem parseVal_nullEnc (fuel : ℕ) (rest : List Char) :
    parseVal (fuel + 1) (['n', 'u', 'l', 'l'] ++ rest) = some (Js.null, rest) := rfl

theorem parseVal_digit_head {c : Char} (hdig : isDigitC c = true) (fuel : ℕ)
    (r : List Char) :
    parseVal (fuel + 1) (c :: r) = (parseNum (c :: r)).map fun p => (Js.num p.1, p.2) := by
  obtain ⟨h1, h2, h3, h4, h5, h6⟩ := isDigitC_branches hdig
  rw [parseVal_succ, skipWs_cons (isDigitC_not_jsonWs hdig)]
  simp only [if_neg h1, if_neg h2, if_neg h3, if_neg h4, if_neg h5, if_neg h6,
    if_pos (Or.inr hdig)]

theorem parseVal_numChars (fuel : ℕ) (q : ℚ) (hdec : isDecQ q = true)
    {rest : List Char} (hr : numStop rest = true) :
    parseVal (fuel + 1) (numChars q ++ rest) = some (Js.num q, rest) := by
  by_cases hq : q < 0
  · have hd : numChars q ++ rest = '-' :: (numCharsNN (-q) ++ rest) := by
      rw [numChars, if_pos hq]
      rfl
    have hstep : parseVal (fuel + 1) ('-' :: (numCharsNN (-q) ++ rest)) =
        (parseNum ('-' :: (numCharsNN (-q) ++ rest))).map fun p => (Js.num p.1, p.2) := rfl
    rw [hd, hstep, show '-' :: (numCharsNN (-q) ++ rest) = numChars q ++ rest from hd.symm,
      parseNum_numChars q hdec hr]
    rfl
  · have hd : numChars q ++ rest = numCharsNN q ++ rest := by rw [numChars, if_neg hq]
    obtain ⟨c, t, hct, hdig⟩ := numCharsNN_head q
    rw [hd, hct, List.cons_append, parseVal_digit_head hdig,
      show c :: (t ++ rest) = (c :: t) ++ rest from rfl, ← hct, ← hd,
      parseNum_numChars q hdec hr]
    rfl

/-- Encoder-compatibility of a `JSNum` field value: finite values must be
decimal-representable (as every double is); `NaN`/infinities encode to
`null` with no side condition. -/
def JSNum.encOk : JSNum → Bool
  | JSNum.num q => isDecQ q
  | _ => true

theorem parseVal_jsNumEnc (fuel : ℕ) (n : JSNum) (hn : n.encOk = true)
    {rest : List Char} (hr : numStop rest = true) :
    parseVal (fuel + 1) (jsNumEnc n ++ rest) = some (jsNumToJs n, rest) := by
  match n with
  | JSNum.nan => exact parseVal_nullEnc fuel rest
  | JSNum.posInf => exact parseVal_nullEnc fuel rest
  | JSNum.negInf => exact parseVal_nullEnc fuel rest
  | JSNum.num q => exact parseVal_numChars fuel q hn hr

/-! ### Array and object round-trip, specialized to the config shape -/

theorem parseVal_lbrack (fuel : ℕ) (r : List Char) :
    parseVal (fuel + 1) ('[' :: r) =
      match skipWs r with
      | ']' :: r2 => some (Js.arr [], r2)
      | r2 => (parseElems fuel r2).map fun p => (Js.arr p.1, p.2) := rfl

theorem parseVal_lbrace (fuel : ℕ) (r : List Char) :
    parseVal (fuel + 1) ('{' :: r) =
      match skipWs r with
      | '}' :: r2 => some (Js.obj [], r2)
      | r2 => (parseMembers fuel r2).map fun p => (Js.obj p.1, p.2) := rfl

theorem stagesEnc_cons_shape (s : String) (ls : List String) (X : List Char) :
    ∃ Y, stagesEnc (s :: ls) ++ X = '"' :: Y := by
  match ls with
  | [] => exact ⟨escList s.data ++ ['"'] ++ X, by simp [stagesEnc, quoteChars]⟩
  | s2 :: r =>
    exact ⟨(escList s.data ++ ['"']) ++ (',' :: stagesEnc (s2 :: r)) ++ X,
      by simp [stagesEnc, quoteChars]⟩

theorem parseElems_stages (ls : List String) : ∀ (s : String),
    (∀ x ∈ s :: ls, strSafe x = true) → ∀ (fuel : ℕ), ls.length + 2 ≤ fuel →
    ∀ (rest : List Char),
      parseElems fuel (stagesEnc (s :: ls) ++ (']' :: rest)) =
        some ((s :: ls).map Js.str, rest) := by
  induction ls with
  | nil =>
    intro s hall fuel hf rest
    obtain ⟨f, rfl⟩ : ∃ f, fuel = f + 1 := ⟨fuel - 1, by omega⟩
    obtain ⟨f', rfl⟩ : ∃ f', f = f' + 1 := ⟨f - 1, by omega⟩
    rw [show stagesEnc [s] = quoteChars s from rfl, parseElems_succ,
      parseVal_quote f' s (hall s (by simp)) (']' :: rest)]
    rfl
  | cons s2 ls' ih =>
    intro s hall fuel hf rest
    obtain ⟨f, rfl⟩ : ∃ f, fuel = f + 1 := ⟨fuel - 1, by omega⟩
    obtain ⟨f', rfl⟩ : ∃ f', f = f' + 1 := ⟨f - 1, by omega⟩
    have hsh : stagesEnc (s :: s2 :: ls') ++ (']' :: rest) =
        quoteChars s ++ (',' :: (stagesEnc (s2 :: ls') ++ (']' :: rest))) := by
      rw [show stagesEnc (s :: s2 :: ls') = quoteChars s ++ (',' :: stagesEnc (s2 :: ls'))
        from rfl]
      simp
    rw [hsh, parseElems_succ,
      parseVal_quote f' s (hall s (by simp)) (',' :: (stagesEnc (s2 :: ls') ++ (']' :: rest)))]
    have hrec := ih s2 (fun x hx => hall x (by simp at hx ⊢; tauto)) (f' + 1) (by
      simp only [List.length_cons] at hf ⊢
      omega) rest
    simp only [Option.some_bind]
    rw [show skipWs (',' :: (stagesEnc (s2 :: ls') ++ (']' :: rest))) =
      ',' :: (stagesEnc (s2 :: ls') ++ (']' :: rest)) from skipWs_cons (by decide)]
    simp only [hrec, Option.map_some']
    rfl

theorem parseVal_stagesArr (l : List String) (hl : ∀ x ∈ l, strSafe x = true)
    (fuel : ℕ) (hf : l.length + 1 ≤ fuel) (rest : List Char) :
    parseVal (fuel + 1) (stagesArrEnc l ++ rest) = some (Js.arr (l.map Js.str), rest) := by
  match l with
  | [] => rfl
  | s :: ls =>
    obtain ⟨f, rfl⟩ : ∃ f, fuel = f + 1 := ⟨fuel - 1, by omega⟩
    have hsh : stagesArrEnc (s :: ls) ++ rest =
        '[' :: (stagesEnc (s :: ls) ++ (']' :: rest)) := by
      rw [stagesArrEnc]
      simp
    obtain ⟨Y, hY⟩ := stagesEnc_cons_shape s ls (']' :: rest)
    rw [hsh, parseVal_lbrack, hY, skipWs_cons (by decide)]
    have hred : (match ('"' :: Y : List Char) with
        | ']' :: r2 => some (Js.arr [], r2)
        | r2 => (parseElems (f + 1) r2).map fun p => (Js.arr p.1, p.2)) =
        (parseElems (f + 1) ('"' :: Y)).map fun p => (Js.arr p.1, p.2) := rfl
    rw [hred, ← hY, parseElems_stages ls s hl (f + 1) (by
      simp only [List.length_cons] at hf
      omega) rest]
    rfl

theorem parseMembers_entry_cons (f : ℕ) (k : String) (hk : strSafe k = true)
    (venc : List Char) (v : Js) (tail rest : List Char) (ms : List (String × Js))
    (hval : parseVal f (venc ++ (',' :: tail)) = some (v, ',' :: tail))
    (hrec : parseMembers f tail = some (ms, rest)) :
    parseMembers (f + 1) (quoteChars k ++ (':' :: (venc ++ (',' :: tail)))) =
      some ((k, v) :: ms, rest) := by
  have hsh : quoteChars k ++ (':' :: (venc ++ (',' :: tail))) =
      '"' :: (k.data ++ ('"' :: (':' :: (venc ++ (',' :: tail))))) := by
    rw [quoteChars_safe_eq k hk]
    simp
  rw [parseMembers_succ, hsh, skipWs_cons (by decide)]
  have hred : (match ('"' :: (k.data ++ ('"' :: (':' :: (venc ++ (',' :: tail))))) :
      List Char) with
      | '"' :: r =>
        (parseStrBody r []).bind fun kp =>
          match skipWs kp.2 with
          | ':' :: r2 =>
            (parseVal f r2).bind fun vp =>
              match skipWs vp.2 with
              | ',' :: r3 => (parseMembers f r3).map fun q => ((kp.1, vp.1) :: q.1, q.2)
              | '}' :: r3 => some ([(kp.1, vp.1)], r3)
              | _ => none
          | _ => none
      | _ => none) =
      (parseStrBody (k.data ++ ('"' :: (':' :: (venc ++ (',' :: tail))))) []).bind fun kp =>
        match skipWs kp.2 with
        | ':' :: r2 =>
          (parseVal f r2).bind fun vp =>
            match skipWs vp.2 with
            | ',' :: r3 => (parseMembers f r3).map fun q => ((kp.1, vp.1) :: q.1, q.2)
            | '}' :: r3 => some ([(kp.1, vp.1)], r3)
            | _ => none
        | _ => none := rfl
  rw [hred, parseStrBody_quote k hk (':' :: (venc ++ (',' :: tail)))]
  simp only [Option.some_bind]
  rw [show skipWs (':' :: (venc ++ (',' :: tail))) = ':' :: (venc ++ (',' :: tail))
    from skipWs_cons (by decide)]
  simp only [hval, Option.some_bind]
  rw [show skipWs (',' :: tail) = ',' :: tail from skipWs_cons (by decide)]
  simp only [hrec, Option.map_some']

theorem parseMembers_entry_last (f : ℕ) (k : String) (hk : strSafe k = true)
    (venc : List Char) (v : Js) (rest : List Char)
    (hval : parseVal f (venc ++ ('}' :: rest)) = some (v, '}' :: rest)) :
    parseMembers (f + 1) (quoteChars k ++ (':' :: (venc ++ ('}' :: rest)))) =
      some ([(k, v)], rest) := by
  have hsh : quoteChars k ++ (':' :: (venc ++ ('}' :: rest))) =
      '"' :: (k.data ++ ('"' :: (':' :: (venc ++ ('}' :: rest))))) := by
    rw [quoteChars_safe_eq k hk]
    simp
  rw [parseMembers_succ, hsh, skipWs_cons (by decide)]
  have hred : (match ('"' :: (k.data ++ ('"' :: (':' :: (venc ++ ('}' :: rest)))))
      : List Char) with
      | '"' :: r =>
        (parseStrBody r []).bind fun kp =>
          match skipWs kp.2 with
          | ':' :: r2 =>
            (parseVal f r2).bind fun vp =>
              match skipWs vp.2 with
              | ',' :: r3 => (parseMembers f r3).map fun q => ((kp.1, vp.1) :: q.1, q.2)
              | '}' :: r3 => some ([(kp.1, vp.1)], r3)
              | _ => none
          | _ => none
      | _ => none) =
      (parseStrBody (k.data ++ ('"' :: (':' :: (venc ++ ('}' :: rest))))) []).bind fun kp =>
        match skipWs kp.2 with
        | ':' :: r2 =>
          (parseVal f r2).bind fun vp =>
            match skipWs vp.2 with
            | ',' :: r3 => (parseMembers f r3).map fun q => ((kp.1, vp.1) :: q.1, q.2)
            | '}' :: r3 => some ([(kp.1, vp.1)], r3)
            | _ => none
        | _ => none := rfl
  rw [hred, parseStrBody_quote k hk (':' :: (venc ++ ('}' :: rest)))]
  simp only [Option.some_bind]
  rw [show skipWs (':' :: (venc ++ ('}' :: rest))) = ':' :: (venc ++ ('}' :: rest))
    from skipWs_cons (by decide)]
  simp only [hval, Option.some_bind]
  rw [show skipWs ('}' :: rest) = '}' :: rest from skipWs_cons (by decide)]
  rfl

/-! ### The full config round-trip -/

/-- A finite, decimal-representable JS number (the image of a finite double). -/
def JSNum.isFiniteDec : JSNum → Bool
  | JSNum.num q => isDecQ q
  | _ => false

theorem JSNum.isFiniteDec_encOk {n : JSNum} (h : n.isFiniteDec = true) : n.encOk = true := by
  match n with
  | JSNum.num q => exact h
  | JSNum.nan => rfl
  | JSNum.posInf => rfl
  | JSNum.negInf => rfl

/-- A config with string-safe text fields and finite decimal numeric fields:
the regime every value produced from real form input and real doubles lives
in, and the regime of the round-trip law. -/
def SafeConfig (c : FunnelConfig) : Bool :=
  strSafe c.business && strSafe c.industry && c.stages.all strSafe &&
  c.sessions.isFiniteDec && c.cpa.isFiniteDec

/-- The member list of the JSON value a serialized config parses back to. -/
def configMembersJs (c : FunnelConfig) : List (String × Js) :=
  [("business", Js.str c.business),
   ("industry", Js.str c.industry),
   ("sessions", jsNumToJs c.sessions),
   ("cpa", jsNumToJs c.cpa),
   ("stages", Js.arr (c.stages.map Js.str)),
   ("newsletter", Js.bool c.newsletter)]

theorem configToJs_eq_obj (c : FunnelConfig) : configToJs c = Js.obj (configMembersJs c) := rfl

theorem configEnc_shape (c : FunnelConfig) (X : List Char) :
    configEncMembers c ++ X =
      quoteChars "business" ++ (':' :: (quoteChars c.business ++ (',' ::
      (quoteChars "industry" ++ (':' :: (quoteChars c.industry ++ (',' ::
      (quoteChars "sessions" ++ (':' :: (jsNumEnc c.sessions ++ (',' ::
      (quoteChars "cpa" ++ (':' :: (jsNumEnc c.cpa ++ (',' ::
      (quoteChars "stages" ++ (':' :: (stagesArrEnc c.stages ++ (',' ::
      (quoteChars "newsletter" ++
        (':' :: (boolEnc c.newsletter ++ X)))))))))))))))))))))) := by
  rw [configEncMembers]
  simp [List.append_assoc]

theorem parseMembers_config (c : FunnelConfig) (hsafe : SafeConfig c = true)
    (fuel : ℕ) (hf : c.stages.length + 12 ≤ fuel) (rest : List Char) :
    parseMembers fuel (configEncMembers c ++ ('}' :: rest)) =
      some (configMembersJs c, rest) := by
  simp only [SafeConfig, Bool.and_eq_true] at hsafe
  obtain ⟨⟨⟨⟨hb, hi⟩, hst⟩, hses⟩, hcpa⟩ := hsafe
  have hstl : ∀ x ∈ c.stages, strSafe x = true := List.all_eq_true.mp hst
  rw [configEnc_shape]
  obtain ⟨f1, rfl⟩ : ∃ x, fuel = x + 1 := ⟨fuel - 1, by omega⟩
  obtain ⟨f2, rfl⟩ : ∃ x, f1 = x + 1 := ⟨f1 - 1, by omega⟩
  obtain ⟨f3, rfl⟩ : ∃ x, f2 = x + 1 := ⟨f2 - 1, by omega⟩
  obtain ⟨f4, rfl⟩ : ∃ x, f3 = x + 1 := ⟨f3 - 1, by omega⟩
  obtain ⟨f5, rfl⟩ : ∃ x, f4 = x + 1 := ⟨f4 - 1, by omega⟩
  obtain ⟨f6, rfl⟩ : ∃ x, f5 = x + 1 := ⟨f5 - 1, by omega⟩
  apply parseMembers_entry_cons _ "business" (by decide)
  · exact parseVal_quote _ c.business hb _
  apply parseMembers_entry_cons _ "industry" (by decide)
  · exact parseVal_quote _ c.industry hi _
  apply parseMembers_entry_cons _ "sessions" (by decide)
  · exact parseVal_jsNumEnc _ c.sessions (JSNum.isFiniteDec_encOk hses) rfl
  apply parseMembers_entry_cons _ "cpa" (by decide)
  · exact parseVal_jsNumEnc _ c.cpa (JSNum.isFiniteDec_encOk hcpa) rfl
  apply parseMembers_entry_cons _ "stages" (by decide)
  · exact parseVal_stagesArr c.stages hstl _ (by omega) _
  apply parseMembers_entry_last _ "newsletter" (by decide)
  obtain ⟨g, hg⟩ : ∃ x, f6 = x + 1 := ⟨f6 - 1, by omega⟩
  rw [hg]
  exact parseVal_boolEnc g c.newsletter _

theorem stagesEnc_len : ∀ l : List String, l.length ≤ (stagesEnc l).length
  | [] => by simp [stagesEnc]
  | [s] => by simp [stagesEnc, quoteChars]
  | s :: s2 :: r => by
    have ih := stagesEnc_len (s2 :: r)
    simp only [stagesEnc, quoteChars, List.length_cons, List.length_append] at ih ⊢
    omega

theorem configStringify_length (c : FunnelConfig) :
    c.stages.length + 14 ≤ (configStringify c).data.length := by
  have harr : c.stages.length + 2 ≤ (stagesArrEnc c.stages).length := by
    have := stagesEnc_len c.stages
    simp only [stagesArrEnc, List.length_cons, List.length_append]
    omega
  have hbool : 4 ≤ (boolEnc c.newsletter).length := by
    cases c.newsletter <;> simp [boolEnc]
  have hkey1 : (quoteChars "business").length = 10 := rfl
  have hkey2 : (quoteChars "industry").length = 10 := rfl
  have hkey3 : (quoteChars "sessions").length = 10 := rfl
  have hkey4 : (quoteChars "cpa").length = 5 := rfl
  have hkey5 : (quoteChars "stages").length = 8 := rfl
  have hkey6 : (quoteChars "newsletter").length = 12 := rfl
  show c.stages.length + 14 ≤ ('{' :: (configEncMembers c ++ ['}'])).length
  simp only [configEncMembers, List.length_cons, List.length_append,
    hkey1, hkey2, hkey3, hkey4, hkey5, hkey6]
  omega

/-- Serialize-then-parse returns exactly the JSON value the config denotes. -/
theorem jsonParse_configStringify (c : FunnelConfig) (hsafe : SafeConfig c = true) :
    jsonParse (configStringify c) = some (configToJs c) := by
  have hlen := configStringify_length c
  rw [jsonParse]
  obtain ⟨f, hf⟩ : ∃ x, (configStringify c).data.length + 1 = x + 1 + 1 :=
    ⟨(configStringify c).data.length - 1, by omega⟩
  have hdata : (configStringify c).data = '{' :: (configEncMembers c ++ ['}']) := rfl
  obtain ⟨Y, hY⟩ : ∃ Y, configEncMembers c ++ ['}'] = '"' :: Y := by
    rw [show (['}'] : List Char) = '}' :: [] from rfl, configEnc_shape]
    exact ⟨_, rfl⟩
  rw [hf, hdata, parseVal_lbrace, hY, skipWs_cons (by decide)]
  have hred : (match ('"' :: Y : List Char) with
      | '}' :: r2 => some (Js.obj [], r2)
      | r2 => (parseMembers (f + 1) r2).map fun p => (Js.obj p.1, p.2)) =
      (parseMembers (f + 1) ('"' :: Y)).map fun p => (Js.obj p.1, p.2) := rfl
  rw [hred, ← hY, show (['}'] : List Char) = '}' :: [] from rfl,
    parseMembers_config c hsafe (f + 1) (by
      rw [hdata] at hlen hf
      simp only [List.length_cons, List.length_append] at hlen hf
      omega) []]
  rfl

theorem decodeStrList_map (l : List String) : decodeStrList (l.map Js.str) = some l := by
  induction l with
  | nil => rfl
  | cons s t ih => simp [List.map_cons, decodeStrList, ih]

theorem decodeConfig_configToJs (c : FunnelConfig) (hses : c.sessions.isFiniteDec = true)
    (hcpa : c.cpa.isFiniteDec = true) : decodeConfig (configToJs c) = some c := by
  obtain ⟨b, i, se, cp, stg, nl⟩ := c
  simp only at hses hcpa
  obtain ⟨qs, hqs⟩ : ∃ q, se = JSNum.num q := by
    match h : se with
    | JSNum.num q => exact ⟨q, rfl⟩
    | JSNum.nan => exact absurd hses (by decide)
    | JSNum.posInf => exact absurd hses (by decide)
    | JSNum.negInf => exact absurd hses (by decide)
  obtain ⟨qc, hqc⟩ : ∃ q, cp = JSNum.num q := by
    match h : cp with
    | JSNum.num q => exact ⟨q, rfl⟩
    | JSNum.nan => exact absurd hcpa (by decide)
    | JSNum.posInf => exact absurd hcpa (by decide)
    | JSNum.negInf => exact absurd hcpa (by decide)
  subst hqs hqc
  simp [configToJs, decodeConfig, jsNumToJs, decodeNum, decodeStrList_map]

theorem configStringify_ne_empty (c : FunnelConfig) : configStringify c ≠ "" := by
  intro h
  have := congrArg String.data h
  simp only [configStringify] at this
  exact absurd this (by simp)

/-- `persistConfig` against a working store writes the serialization;
`loadConfig` then returns the parsed JSON value of the config, which decodes
to the config itself. -/
theorem load_after_persist (c : FunnelConfig) (st : Store)
    (hset : st.setThrows = false) (hget : st.getThrows = false)
    (hsafe : SafeConfig c = true) :
    persistConfig c st = Except.ok ⟨some (configStringify c), false, false⟩ ∧
    loadConfig ⟨some (configStringify c), false, false⟩ =
      Except.ok (some (configToJs c)) ∧
    decodeConfig (configToJs c) = some c := by
  refine ⟨?_, ?_, ?_⟩
  · rw [persistConfig, trySetItem, hset, hget]
    simp
  · rw [loadConfig, tryGetItem]
    simp only [Bool.false_eq_true, if_neg, ite_false]
    rw [if_neg (configStringify_ne_empty c), jsonParse_configStringify c hsafe]
  · have h := hsafe
    simp only [SafeConfig, Bool.and_eq_true] at h
    exact decodeConfig_configToJs c h.1.2 h.2

/-! ### Renderer structure -/

theorem stage_foldl (l : List String) (base : List DomNode) :
    l.foldl (fun acc s => appendChild (appendChild acc ⟨"dt", capFirst s⟩)
      ⟨"dd", tmpl (stageDescriptions s) ++ " " ++ tmpl (stageKpis s)⟩) base =
      base ++ l.flatMap stageNodes := by
  induction l generalizing base with
  | nil => simp
  | cons s t ih =>
    rw [List.foldl_cons, ih, List.flatMap_cons]
    simp [appendChild, stageNodes]

/-- The rendered snapshot, flattened: heading, summary, the stage pairs in
order, and the closing nurture line. -/
theorem renderFunnelSnapshot_eq (prior : List DomNode) (c : FunnelConfig) :
    renderFunnelSnapshot prior c =
      ⟨"dt", headingText c⟩ :: ⟨"dd", summaryText c⟩ ::
        (c.stages.flatMap stageNodes ++ [⟨"dd", nurtureText c.newsletter⟩]) := by
  simp only [renderFunnelSnapshot]
  rw [stage_foldl]
  simp [appendChild, replaceChildrenEmpty]

/-! ### Claim theorems -/

/-- Per-field check that a numeric form field is absent or coerces to a
non-negative number. -/
def fieldNumOk (fs : FormState) (name : String) : Bool :=
  match formGet fs name with
  | none => true
  | some v => decide (JSNum.Nonneg (jsNumber v))

/-- Claim C1, counterexample: the claim as stated is false on the code. A
`sessions` field holding `"-5"` coerces to the negative number `-5` (so the
produced config does not have non-negative `sessions`), and a non-numeric
`sessions` field coerces to `NaN`, not to `0`. -/
theorem readFunnelConfig_c1_counterexample :
    (readFunnelConfig [("sessions", "-5")]).sessions = JSNum.num (-5) ∧
    ¬ JSNum.Nonneg (readFunnelConfig [("sessions", "-5")]).sessions ∧
    (readFunnelConfig [("sessions", "oops")]).sessions = JSNum.nan ∧
    (readFunnelConfig [("sessions", "oops")]).sessions ≠ JSNum.num 0 := by
  decide

/-- Claim C1 (amended): `readFunnelConfig` sets `sessions` and `cpa` to the
JavaScript `Number` coercion of the raw field value, and to `0` when the
field is absent; the results are non-negative whenever each numeric field is
absent or coerces to a non-negative number — but non-numeric input yields
`NaN` (not `0`) and a negative numeric string stays negative. -/
theorem readFunnelConfig_numeric (fs : FormState) :
    (formGet fs "sessions" = none → (readFunnelConfig fs).sessions = JSNum.num 0) ∧
    (∀ v, formGet fs "sessions" = some v → (readFunnelConfig fs).sessions = jsNumber v) ∧
    (formGet fs "cpa" = none → (readFunnelConfig fs).cpa = JSNum.num 0) ∧
    (∀ v, formGet fs "cpa" = some v → (readFunnelConfig fs).cpa = jsNumber v) ∧
    (fieldNumOk fs "sessions" = true → fieldNumOk fs "cpa" = true →
      JSNum.Nonneg (readFunnelConfig fs).sessions ∧
      JSNum.Nonneg (readFunnelConfig fs).cpa) := by
  refine ⟨?_, ?_, ?_, ?_, ?_⟩
  · intro h; simp [readFunnelConfig, h]
  · intro v h; simp [readFunnelConfig, h]
  · intro h; simp [readFunnelConfig, h]
  · intro v h; simp [readFunnelConfig, h]
  · intro h1 h2
    constructor
    · rcases hs : formGet fs "sessions" with - | v
      · simp [readFunnelConfig, hs, JSNum.Nonneg]
      · rw [fieldNumOk, hs] at h1
        simp only [decide_eq_true_eq] at h1
        simpa [readFunnelConfig, hs] using h1
    · rcases hs : formGet fs "cpa" with - | v
      · simp [readFunnelConfig, hs, JSNum.Nonneg]
      · rw [fieldNumOk, hs] at h2
        simp only [decide_eq_true_eq] at h2
        simpa [readFunnelConfig, hs] using h2

/-- Witness for the amended C1 at a concrete form state. -/
theorem readFunnelConfig_numeric_witness :
    (readFunnelConfig [("sessions", "8"), ("cpa", "2.5")]).sessions = jsNumber "8" ∧
    JSNum.Nonneg (readFunnelConfig [("sessions", "8"), ("cpa", "2.5")]).sessions ∧
    JSNum.Nonneg (readFunnelConfig [("sessions", "8"), ("cpa", "2.5")]).cpa := by
  have h := readFunnelConfig_numeric [("sessions", "8"), ("cpa", "2.5")]
  obtain ⟨hn1, hn2⟩ := h.2.2.2.2 (by decide) (by decide)
  exact ⟨h.2.1 "8" (by decide), hn1, hn2⟩

/-- Claim C2: with no `stage` field checked, `readFunnelConfig` returns
exactly `awareness, consideration, conversion` in that order; with at least
one checked, it returns the checked values unchanged in collection order. -/
theorem readFunnelConfig_stages (fs : FormState) :
    (formGetAll fs "stage" = [] → (readFunnelConfig fs).stages =
      ["awareness", "consideration", "conversion"]) ∧
    (formGetAll fs "stage" ≠ [] → (readFunnelConfig fs).stages = formGetAll fs "stage") := by
  constructor
  · intro h; simp [readFunnelConfig, defaultStages, h]
  · intro h
    have hlen : 0 < (formGetAll fs "stage").length := List.length_pos.mpr h
    simp [readFunnelConfig, hlen]

/-- Witness for C2: the default on an empty form, and pass-through of two
checked stages. -/
theorem readFunnelConfig_stages_witness :
    (readFunnelConfig []).stages = ["awareness", "consideration", "conversion"] ∧
    (readFunnelConfig [("stage", "retention"), ("stage", "awareness")]).stages =
      ["retention", "awareness"] := by
  refine ⟨(readFunnelConfig_stages []).1 (by decide), ?_⟩
  have h := (readFunnelConfig_stages [("stage", "retention"), ("stage", "awareness")]).2
    (by decide)
  rw [h]
  decide

/-- Claim C9: a stored empty string is indistinguishable from an unset key —
`loadConfig` returns absence either way (the empty string is falsy, so the
code never even parses it). -/
theorem loadConfig_empty_string (sf gf : Bool) :
    loadConfig ⟨some "", sf, gf⟩ = Except.ok none ∧
    loadConfig ⟨none, sf, gf⟩ = Except.ok none ∧
    loadConfig ⟨some "", sf, gf⟩ = loadConfig ⟨none, sf, gf⟩ := by
  cases gf <;> exact ⟨rfl, rfl, rfl⟩

/-- Claim C10: the `newsletter` flag is true exactly when the form's
`newsletter` field is present with the literal value `on`; any other value
(`true`, `yes`, …) or absence gives false. -/
theorem readFunnelConfig_newsletter (fs : FormState) :
    ((readFunnelConfig fs).newsletter = true ↔ formGet fs "newsletter" = some "on") ∧
    (readFunnelConfig [("newsletter", "true")]).newsletter = false ∧
    (readFunnelConfig [("newsletter", "yes")]).newsletter = false ∧
    (readFunnelConfig [("newsletter", "on")]).newsletter = true := by
  refine ⟨?_, by decide, by decide, by decide⟩
  simp [readFunnelConfig]

/-- Claim C3: the round-trip law. Persisting a config with string-safe text
fields and finite (decimal-representable, as every IEEE double is) numeric
fields against a working store, then loading, returns exactly the persisted
config: the loaded JSON value is the config's denotation, and it reads back
as the identical `FunnelConfig`. -/
theorem persist_load_roundTrip (c : FunnelConfig) (st : Store)
    (hset : st.setThrows = false) (hget : st.getThrows = false)
    (hsafe : SafeConfig c = true) :
    persistConfig c st = Except.ok ⟨some (configStringify c), false, false⟩ ∧
    loadConfig ⟨some (configStringify c), false, false⟩ =
      Except.ok (some (configToJs c)) ∧
    decodeConfig (configToJs c) = some c :=
  load_after_persist c st hset hget hsafe

/-- Witness for C3 at a concrete config and an empty working store. -/
theorem persist_load_roundTrip_witness :
    persistConfig ⟨"Acme", "retail", JSNum.num 1000, JSNum.num (427/10),
        ["awareness", "retention"], true⟩ ⟨none, false, false⟩ =
      Except.ok ⟨some (configStringify ⟨"Acme", "retail", JSNum.num 1000,
        JSNum.num (427/10), ["awareness", "retention"], true⟩), false, false⟩ ∧
    loadConfig ⟨some (configStringify ⟨"Acme", "retail", JSNum.num 1000,
        JSNum.num (427/10), ["awareness", "retention"], true⟩), false, false⟩ =
      Except.ok (some (configToJs ⟨"Acme", "retail", JSNum.num 1000,
        JSNum.num (427/10), ["awareness", "retention"], true⟩)) ∧
    decodeConfig (configToJs ⟨"Acme", "retail", JSNum.num 1000, JSNum.num (427/10),
        ["awareness", "retention"], true⟩) =
      some ⟨"Acme", "retail", JSNum.num 1000, JSNum.num (427/10),
        ["awareness", "retention"], true⟩ :=
  persist_load_roundTrip _ _ rfl rfl (by decide)

/-- Claim C4: neither codec function propagates an error. `persistConfig`
returns normally for every store behaviour (on a throwing write the failure
is swallowed and the store unchanged); `loadConfig` returns absence when the
key is unset, when the stored string fails to parse (malformed content being
indistinguishable from absence), and when the read itself throws. -/
theorem persist_load_error_free (st : Store) (c : FunnelConfig) :
    persistConfig c st = Except.ok (if st.setThrows then st
      else ⟨some (configStringify c), st.setThrows, st.getThrows⟩) ∧
    (st.val = none → loadConfig st = Except.ok none) ∧
    (∀ raw, st.val = some raw → jsonParse raw = none → loadConfig st = Except.ok none) ∧
    (∀ raw, st.val = some raw → jsonParse raw = none →
      loadConfig st = loadConfig ⟨none, st.setThrows, st.getThrows⟩) ∧
    (st.getThrows = true → loadConfig st = Except.ok none) := by
  obtain ⟨v, sf, gf⟩ := st
  refine ⟨?_, ?_, ?_, ?_, ?_⟩
  · cases sf <;> simp [persistConfig, trySetItem]
  · intro h
    subst h
    cases gf <;> simp [loadConfig, tryGetItem]
  · intro raw hv hp
    subst hv
    cases gf
    · by_cases hr : raw = "" <;> simp [loadConfig, tryGetItem, hp, hr]
    · simp [loadConfig, tryGetItem]
  · intro raw hv hp
    subst hv
    cases gf
    · by_cases hr : raw = "" <;> simp [loadConfig, tryGetItem, hp, hr]
    · simp [loadConfig, tryGetItem]
  · intro h
    subst h
    simp [loadConfig, tryGetItem]

/-- Witness for C4: a store whose write throws leaves persist returning
normally with the store unchanged, and stored non-JSON content loads as
absence. -/
theorem persist_load_error_free_witness :
    persistConfig ⟨"", "", JSNum.num 0, JSNum.num 0, [], false⟩
        ⟨some "oops", true, false⟩ =
      Except.ok ⟨some "oops", true, false⟩ ∧
    loadConfig ⟨some "oops", true, false⟩ = Except.ok none := by
  have h := persist_load_error_free ⟨some "oops", true, false⟩
    ⟨"", "", JSNum.num 0, JSNum.num 0, [], false⟩
  exact ⟨by simpa using h.1, h.2.2.1 "oops" rfl rfl⟩

set_option maxRecDepth 4000 in
/-- Claim C6: the snapshot is the heading; then the summary line built from
the industry (placeholder `General` when empty), the locale-formatted
session count and the CPA fixed to whole dollars; then per stage, in order,
the capitalized label and the concatenated description and KPI copy; then
the closing line. On the example form input the summary reads exactly as
the specification says, the three default stages render, and the closing
line is the skipped message. -/
theorem renderFunnelSnapshot_c6 (prior : List DomNode) (c : FunnelConfig) :
    renderFunnelSnapshot prior c =
      ⟨"dt", (if c.business = "" then "Your brand" else c.business) ++ " funnel overview"⟩ ::
      ⟨"dd", "Industry focus: " ++ (if c.industry = "" then "General" else c.industry) ++
        " | Monthly sessions: " ++ toLocaleString c.sessions ++
        " | Target CPA: $" ++ toFixed0 c.cpa⟩ ::
      (c.stages.flatMap (fun s => [⟨"dt", capFirst s⟩,
        ⟨"dd", tmpl (stageDescriptions s) ++ " " ++ tmpl (stageKpis s)⟩]) ++
       [⟨"dd", nurtureText c.newsletter⟩]) ∧
    renderFunnelSnapshot prior (readFunnelConfig
      [("business", "Acme"), ("industry", ""), ("sessions", "1000"), ("cpa", "42.7")]) =
      [⟨"dt", "Acme funnel overview"⟩,
       ⟨"dd", "Industry focus: General | Monthly sessions: 1,000 | Target CPA: $43"⟩,
       ⟨"dt", "Awareness"⟩,
       ⟨"dd", "Build omnichannel reach with paid social, influencer partnerships, and hero content hubs. Primary KPIs: reach, CPM efficiency, and top-of-funnel CTR."⟩,
       ⟨"dt", "Consideration"⟩,
       ⟨"dd", "Drive mid-funnel intent with progressive profiling, comparison guides, and nurture sequences. Primary KPIs: MQL velocity, content engagement depth, and remarketing lift."⟩,
       ⟨"dt", "Conversion"⟩,
       ⟨"dd", "Optimize acquisition moments with CRO testing, sales enablement, and automated onboarding. Primary KPIs: CAC trendline, pipeline velocity, and on-site conversion rate."⟩,
       ⟨"dd", "Newsletter insights skipped. Add email sync to stay aligned with funnel experiments."⟩] := by
  constructor
  · rw [renderFunnelSnapshot_eq]
    rfl
  · rw [renderFunnelSnapshot_eq]
    decide

/-- Claim C7: two configs differing only in the newsletter flag render
snapshots that are byte-identical except in the final closing line, which
depends only on the flag. -/
theorem renderFunnelSnapshot_newsletter_frame (prior : List DomNode) (c : FunnelConfig)
    (b : Bool) :
    (renderFunnelSnapshot prior
        ⟨c.business, c.industry, c.sessions, c.cpa, c.stages, b⟩).dropLast =
      (renderFunnelSnapshot prior c).dropLast ∧
    (renderFunnelSnapshot prior
        ⟨c.business, c.industry, c.sessions, c.cpa, c.stages, b⟩).getLast? =
      some ⟨"dd", nurtureText b⟩ ∧
    (renderFunnelSnapshot prior c).getLast? = some ⟨"dd", nurtureText c.newsletter⟩ := by
  have h1 := renderFunnelSnapshot_eq prior
    ⟨c.business, c.industry, c.sessions, c.cpa, c.stages, b⟩
  have h2 := renderFunnelSnapshot_eq prior c
  have hsh : ∀ (x y : DomNode) (F : List DomNode) (n : DomNode),
      x :: y :: (F ++ [n]) = (x :: y :: F) ++ [n] := fun x y F n => by simp
  refine ⟨?_, ?_, ?_⟩
  · rw [h1, h2]
    simp only [hsh, List.dropLast_concat]
    rfl
  · rw [h1]
    simp only [hsh, List.getLast?_concat]
  · rw [h2]
    simp only [hsh, List.getLast?_concat]

/-- Claim C8: `renderFunnelSnapshot` replaces the container's children
wholesale, so it is idempotent on the display region: rendering twice with
the same config leaves exactly the content of a single render, whatever was
displayed before. -/
theorem renderFunnelSnapshot_idempotent (prior : List DomNode) (c : FunnelConfig) :
    renderFunnelSnapshot (renderFunnelSnapshot prior c) c = renderFunnelSnapshot prior c ∧
    renderFunnelSnapshot prior c = renderFunnelSnapshot [] c :=
  ⟨rfl, rfl⟩

theorem loadConfig_of_stringify (c : FunnelConfig) (hsafe : SafeConfig c = true)
    (sf : Bool) :
    loadConfig ⟨some (configStringify c), sf, false⟩ = Except.ok (some (configToJs c)) := by
  rw [loadConfig, tryGetItem]
  simp only [Bool.false_eq_true, if_neg, ite_false]
  rw [if_neg (configStringify_ne_empty c), jsonParse_configStringify c hsafe]

/-- Claim C5: the brief is the exact ordered line sequence — title, one line
per scalar field with `Not specified` placeholders for empty text fields,
blank separator, a `Stage Strategy` section of uppercased identifier and
description per stage, blank separator, a `KPIs` section of uppercased
identifier and KPI text per stage. The exporter uses the persisted config
when one exists and otherwise reads the live form (an unset key, and
likewise unparseable stored content, falls back to the form). A config with
stages `[retention]` yields exactly the specified `RETENTION:` line in the
Stage Strategy section (line 9) and the matching KPI line (line 12). -/
theorem exportBrief_c5 (c : FunnelConfig) (st : Store) (fs : FormState) :
    (briefLines c =
      ["FoxyTrailz23 Growth Brief",
       "Business: " ++ (if c.business = "" then "Not specified" else c.business),
       "Industry: " ++ (if c.industry = "" then "Not specified" else c.industry),
       "Monthly Sessions: " ++ toLocaleString c.sessions,
       "Target CPA: $" ++ toFixed0 c.cpa,
       "Stages: " ++ String.intercalate ", " c.stages,
       "Newsletter Sync: " ++ (if c.newsletter then "Enabled" else "Disabled"),
       "",
       "Stage Strategy:"] ++
      c.stages.map (fun s => jsUpper s ++ ": " ++ tmpl (stageDescriptions s)) ++
      ["", "KPIs:"] ++
      c.stages.map (fun s => jsUpper s ++ ": " ++ tmpl (stageKpis s))) ∧
    (st.val = some (configStringify c) → st.getThrows = false → SafeConfig c = true →
      exportBrief st fs = briefLines c) ∧
    (st.val = none → exportBrief st fs = briefLines (readFunnelConfig fs)) ∧
    (∀ raw, st.val = some raw → jsonParse raw = none →
      exportBrief st fs = briefLines (readFunnelConfig fs)) ∧
    (c.stages = ["retention"] →
      (briefLines c)[9]? =
        some "RETENTION: Expand lifetime value through loyalty programs, lifecycle messaging, and advocacy campaigns." ∧
      (briefLines c)[12]? =
        some "RETENTION: Primary KPIs: repeat purchase rate, churn reduction, and NPS elevation.") := by
  obtain ⟨v, sf, gf⟩ := st
  refine ⟨rfl, ?_, ?_, ?_, ?_⟩
  · intro hv hg hsafe
    simp only at hv hg
    subst hv hg
    rw [exportBrief, loadConfig_of_stringify c hsafe sf]
    have h := hsafe
    simp only [SafeConfig, Bool.and_eq_true] at h
    simp [decodeConfig_configToJs c h.1.2 h.2]
  · intro hv
    simp only at hv
    subst hv
    cases gf <;> rfl
  · intro raw hv hp
    simp only at hv
    subst hv
    cases gf
    · by_cases hr : raw = ""
      · subst hr
        rfl
      · rw [exportBrief, loadConfig, tryGetItem]
        simp only [Bool.false_eq_true, if_neg, ite_false]
        rw [if_neg hr, hp]
    · rfl
  · intro hstg
    simp only [briefLines, hstg]
    exact ⟨rfl, rfl⟩

/-- Witness for C5 at a concrete persisted config with stages `[retention]`. -/
theorem exportBrief_c5_witness :
    exportBrief ⟨some (configStringify ⟨"Acme", "", JSNum.num 5, JSNum.num 3,
        ["retention"], false⟩), false, false⟩ [] =
      briefLines ⟨"Acme", "", JSNum.num 5, JSNum.num 3, ["retention"], false⟩ ∧
    (briefLines ⟨"Acme", "", JSNum.num 5, JSNum.num 3, ["retention"], false⟩)[9]? =
      some "RETENTION: Expand lifetime value through loyalty programs, lifecycle messaging, and advocacy campaigns." := by
  have h := exportBrief_c5 ⟨"Acme", "", JSNum.num 5, JSNum.num 3, ["retention"], false⟩
    ⟨some (configStringify ⟨"Acme", "", JSNum.num 5, JSNum.num 3, ["retention"], false⟩),
      false, false⟩ []
  exact ⟨h.2.1 rfl rfl (by decide), (h.2.2.2.2 rfl).1⟩
